import Mathlib

/-!
Casino analytics REST API: ledger generator, loader and aggregation handlers.

A shallow embedding of `utility/utility.go` (synthetic round generator and batch
loader), of the three aggregation pipelines of `main.go` (duplicated in
`models/transactions.go`) and of `userWagerPercentileHandler`.

Modelling conventions

* `time.Time` is an integer number of nanoseconds on the UTC timeline and
  `time.Duration` an integer number of nanoseconds. No computation of the program
  comes near the 64-bit range, so no wrap-around is modelled.
* `primitive.Decimal128` values are exact rationals: the store adds and subtracts
  decimals exactly (34 significant digits are never exceeded by the sums of
  2-decimal amounts considered here).
* A finite `float64` is the rational it denotes. Every float operation is the
  exact rational operation followed by `roundFloat64` (round to nearest, ties to
  even, 53-bit significand). The exponent range is not bounded: the magnitudes
  the program computes stay far from overflow and from the subnormal range.
* `math/rand` is replaced by the raw outcomes of its draws; `Intn n` maps a raw
  outcome into `[0, n)`, `Float64` into the floats `float64(k) / 2^63` below 1.
* The `$match`/`$group`/`$project` stages are executed over the list of documents
  of the collection; `$group` keeps one accumulator per key, in order of first
  occurrence (the store leaves the order of the groups unspecified).
-/

namespace Casino

/-! ## float64 and Decimal128 -/

/-- Nearest integer, ties to the even neighbour. -/
def roundHalfEven (q : ℚ) : ℤ :=
  let f := ⌊q⌋
  if q - f < 1 / 2 then f
  else if 1 / 2 < q - f then f + 1
  else if f % 2 = 0 then f else f + 1

/-- Rounding of an exact rational to the nearest float64 (53-bit significand, ties to even). -/
def roundFloat64 (q : ℚ) : ℚ :=
  if q = 0 then 0
  else
    let e : ℤ := Int.log 2 |q| - 52
    (roundHalfEven (q / (2 : ℚ) ^ e) : ℚ) * (2 : ℚ) ^ e

/-- Float addition `a + b`. -/
def fadd (a b : ℚ) : ℚ := roundFloat64 (a + b)

/-- Float subtraction `a - b`. -/
def fsub (a b : ℚ) : ℚ := roundFloat64 (a - b)

/-- Float multiplication `a * b`. -/
def fmul (a b : ℚ) : ℚ := roundFloat64 (a * b)

/-- Float division `a / b` (only used with a non-zero divisor). -/
def fdiv (a b : ℚ) : ℚ := roundFloat64 (a / b)

/-- Conversion `float64(n)` of an integer. -/
def float64OfInt (n : ℤ) : ℚ := roundFloat64 (n : ℚ)

/-- The decimal that `primitive.ParseDecimal128(fmt.Sprintf("%.2f", x))` yields: `x` rounded to
two fractional digits (the formatter rounds the exact binary value, ties to even). -/
def sprintf2 (x : ℚ) : ℚ := (roundHalfEven (100 * x) : ℚ) / 100

/-- Outcome of `rng.Intn(n)` (and `rng.Int63n(n)`) for a raw outcome of the generator. -/
def Intn (n raw : ℕ) : ℕ := raw % n

/-- Outcome of `rng.Float64()` of `math/rand`: `f := float64(r.Int63()) / (1 << 63)`, where
`r.Int63()` is a 63-bit outcome. The library draws again when `f == 1`; since any value but 1 can
come out of the new draw, such a raw outcome is mapped to one of them, `0`. -/
def Float64 (raw : ℕ) : ℚ :=
  let f := fdiv (float64OfInt (Intn (2 ^ 63) raw : ℕ)) (2 ^ 63)
  if f = 1 then 0 else f

/-! ## Data model (`utility.Transaction`) -/

/-- A `primitive.ObjectID`: twelve bytes, read as one number. -/
structure ObjectID where
  val : ℕ
deriving DecidableEq, Repr

/-- The ledger document (field `Type_` is the source field `Type`, "Wager" or "Payout"). -/
structure Transaction where
  ID : ObjectID
  CreatedAt : ℤ
  UserID : ObjectID
  RoundID : String
  Type_ : String
  Amount : ℚ
  Currency : String
  USDAmount : ℚ
deriving DecidableEq, Repr

/-- The constant `time.Second`, in nanoseconds. -/
def Second : ℤ := 1000000000

/-- The slice `currencies`. -/
def currencies : List String := ["ETH", "BTC", "USDT"]

/-- The map `exchangeRates`; a missing key reads as `0.0`. -/
def exchangeRates (currency : String) : ℚ :=
  if currency = "ETH" then 3000
  else if currency = "BTC" then 50000
  else if currency = "USDT" then 1
  else 0

/-! ## Synthetic event generator -/

/-- The outcomes of everything `generateRoundTransactions` draws or reads from its environment
during one round, in program order. -/
structure RoundDraws where
  /-- raw outcome behind `rng.Intn(len(currencies))` -/
  currency : ℕ
  /-- the clock reading `time.Now().UTC()` of `randomDate` -/
  now : ℤ
  /-- the instant `now.AddDate(-1, 0, 0)` -/
  pastYear : ℤ
  /-- raw outcome behind `rng.Int63n(...)` in `randomDate` -/
  date : ℕ
  /-- raw outcome behind `rng.Intn(3600)` -/
  offset : ℕ
  /-- raw outcome behind the `rng.Float64()` of the wager amount -/
  wager : ℕ
  /-- raw outcome behind the `rng.Float64()` of the payout amount -/
  payout : ℕ
  /-- the two `primitive.NewObjectID()` results -/
  wagerID : ObjectID
  payoutID : ObjectID

/-- Function `randomAmount(min, max)`, with `u` the outcome of `rng.Float64()`; the product and
the sum are rounded one after the other. -/
def randomAmount (min max u : ℚ) : ℚ :=
  let amount := fadd min (fmul u (fsub max min))
  sprintf2 amount

/-- Function `randomCurrency()`. -/
def randomCurrency (raw : ℕ) : String :=
  currencies.getD (Intn currencies.length raw) ""

/-- Function `randomDate()`: `pastYear` plus a whole number of seconds below the length of the
past year (`now` and `pastYear` differ by a whole number of seconds, which
`int64(now.Sub(pastYear).Seconds())` returns unchanged). -/
def randomDate (now pastYear : ℤ) (raw : ℕ) : ℤ :=
  let randomSeconds := Intn ((now - pastYear) / Second).toNat raw
  pastYear + (randomSeconds : ℤ) * Second

/-- Function `decimal128ToFloat64`: the decimal's string, parsed by `strconv.ParseFloat`. -/
def decimal128ToFloat64 (d : ℚ) : ℚ := roundFloat64 d

/-- Function `usdEquivalent(amount, currency)`. -/
def usdEquivalent (amount : ℚ) (currency : String) : ℚ :=
  let amountFloat := decimal128ToFloat64 amount
  let usdValue := fmul amountFloat (exchangeRates currency)
  sprintf2 usdValue

/-- Function `generateRoundTransactions(roundID, userID)`. -/
def generateRoundTransactions (d : RoundDraws) (roundID : String) (userID : ObjectID) :
    List Transaction :=
  let currency := randomCurrency d.currency
  let wagerTime := randomDate d.now d.pastYear d.date
  let payoutTime := wagerTime + ((Intn 3600 d.offset : ℕ) + 60 : ℤ) * Second
  let wagerAmount := randomAmount 10 500 (Float64 d.wager)
  let wagerAmountFloat := decimal128ToFloat64 wagerAmount
  let payoutAmount :=
    randomAmount (fmul (1 / 2) wagerAmountFloat) (fmul 2 wagerAmountFloat) (Float64 d.payout)
  [ { ID := d.wagerID, CreatedAt := wagerTime, UserID := userID, RoundID := roundID,
      Type_ := "Wager", Amount := wagerAmount, Currency := currency,
      USDAmount := usdEquivalent wagerAmount currency },
    { ID := d.payoutID, CreatedAt := payoutTime, UserID := userID, RoundID := roundID,
      Type_ := "Payout", Amount := payoutAmount, Currency := currency,
      USDAmount := usdEquivalent payoutAmount currency } ]

/-! ## Batch loader -/

/-- What one iteration of the round loop of `LoadData` draws before it calls the generator. -/
structure LoadDraws where
  /-- the hex string of the `primitive.NewObjectID()` used as round identifier -/
  roundID : String
  /-- raw outcome behind `rng.Intn(len(userIDs))` -/
  user : ℕ
  round : RoundDraws

/-- The loop state of `LoadData`: the buffer `batch` and the buffers already handed to an
`InsertMany` goroutine, in dispatch order. -/
structure LoadState where
  batch : List Transaction
  dispatched : List (List Transaction)

/-- The events of one iteration: `generateRoundTransactions(roundID, userIDs[rng.Intn(...)])`. -/
def roundEvents (userIDs : List ObjectID) (d : LoadDraws) : List Transaction :=
  let userID := userIDs.getD (Intn userIDs.length d.user) ⟨0⟩
  generateRoundTransactions d.round d.roundID userID

/-- One iteration of the round loop of `LoadData`. -/
def loadStep (batchSize : ℕ) (userIDs : List ObjectID) (st : LoadState) (d : LoadDraws) :
    LoadState :=
  let transactions := roundEvents userIDs d
  let batch := transactions.foldl (fun b t => b ++ [t]) st.batch
  if batchSize ≤ batch.length then
    { batch := [], dispatched := st.dispatched ++ [batch] }
  else
    { batch := batch, dispatched := st.dispatched }

/-- The inserts `LoadData` issues: the batches dispatched from the loop and the final insert of
the remaining records (`none` when the buffer is empty). -/
structure LoadResult where
  dispatched : List (List Transaction)
  final : Option (List Transaction)

/-- Function `LoadData`, one element of `rounds` per iteration (`NumRounds = rounds.length`). -/
def LoadData (batchSize : ℕ) (userIDs : List ObjectID) (rounds : List LoadDraws) : LoadResult :=
  let st := rounds.foldl (loadStep batchSize userIDs) { batch := [], dispatched := [] }
  { dispatched := st.dispatched
    final := if 0 < st.batch.length then some st.batch else none }

/-- Every record `LoadData` inserts, in dispatch order, the final insert last. -/
def LoadResult.inserted (r : LoadResult) : List Transaction :=
  r.dispatched.flatten ++ r.final.getD []


/-! ## Concrete inputs used by the evaluations below -/

/-- A round whose `rng.Intn(3600)` outcome is the largest possible one, 3599. -/
def lateRound : RoundDraws :=
  { currency := 2, now := 1700000000 * Second, pastYear := 1668464000 * Second, date := 86400,
    offset := 3599, wager := 0, payout := 0, wagerID := ⟨1⟩, payoutID := ⟨2⟩ }

/-- One iteration of the loader with arbitrary outcomes. -/
def sampleLoad : LoadDraws :=
  { roundID := "65a000000000000000000001", user := 7, round := lateRound }

/-- A pool of two user identifiers. -/
def samplePool : List ObjectID := [⟨100⟩, ⟨200⟩]

/-! ## Aggregation stages of the store -/

/-- Stage `$match` on `createdAt`: `$gte fromDate`, `$lte toDate`. -/
def inRange (fromDate toDate : ℤ) (t : Transaction) : Bool :=
  decide (fromDate ≤ t.CreatedAt) && decide (t.CreatedAt ≤ toDate)

/-- Stage `$group`, one document: the accumulator of the document's key is updated; a key met
for the first time gets a fresh accumulator, after the groups already open. -/
def groupInsert {D K A : Type} [DecidableEq K] (key : D → K) (init : A) (acc : A → D → A) :
    List (K × A) → D → List (K × A)
  | [], doc => [(key doc, acc init doc)]
  | (k, a) :: gs, doc =>
    if k = key doc then (k, acc a doc) :: gs
    else (k, a) :: groupInsert key init acc gs doc

/-- Stage `$group` over the documents that reach it: one row `(_id, accumulators)` per key. -/
def group {D K A : Type} [DecidableEq K] (key : D → K) (init : A) (acc : A → D → A)
    (docs : List D) : List (K × A) :=
  docs.foldl (groupInsert key init acc) []

/-! ## Revenue pipeline (`grossGamingRevHandler`, `models.RevenueQuery`) -/

/-- The accumulators of the revenue `$group` stage. -/
structure RevenueTotals where
  totalWagered : ℚ
  totalPayout : ℚ
  totalWageredUSD : ℚ
  totalPayoutUSD : ℚ
deriving DecidableEq, Repr

/-- A row of the revenue `$project` stage. -/
structure RevenueRow where
  currency : String
  ggr : ℚ
  ggrUSD : ℚ
deriving DecidableEq, Repr

/-- The revenue `matchStage`. -/
def revenueMatch (collection : List Transaction) (fromDate toDate : ℤ) : List Transaction :=
  collection.filter (inRange fromDate toDate)

/-- The four `$sum` of `$cond` accumulators of the revenue `groupStage`, for one document. -/
def revenueAcc (a : RevenueTotals) (t : Transaction) : RevenueTotals :=
  { totalWagered := a.totalWagered + (if t.Type_ = "Wager" then t.Amount else 0)
    totalPayout := a.totalPayout + (if t.Type_ = "Payout" then t.Amount else 0)
    totalWageredUSD := a.totalWageredUSD + (if t.Type_ = "Wager" then t.USDAmount else 0)
    totalPayoutUSD := a.totalPayoutUSD + (if t.Type_ = "Payout" then t.USDAmount else 0) }

/-- The value every `$sum` accumulator starts from. -/
def revenueInit : RevenueTotals :=
  { totalWagered := 0, totalPayout := 0, totalWageredUSD := 0, totalPayoutUSD := 0 }

/-- The revenue `groupStage`: `_id` is `$currency`. -/
def revenueGroup (docs : List Transaction) : List (String × RevenueTotals) :=
  group (fun t => t.Currency) revenueInit revenueAcc docs

/-- The revenue `projectStage`. -/
def revenueProject (g : String × RevenueTotals) : RevenueRow :=
  { currency := g.1
    ggr := g.2.totalWagered - g.2.totalPayout
    ggrUSD := g.2.totalWageredUSD - g.2.totalPayoutUSD }

/-- Function `models.RevenueQuery`: the pipeline `matchStage, groupStage, projectStage` over the
documents of its collection. -/
def RevenueQuery (collection : List Transaction) (fromDate toDate : ℤ) : List RevenueRow :=
  (revenueGroup (revenueMatch collection fromDate toDate)).map revenueProject

/-! ## Daily volume pipeline (`dailyWagerVolumeHandler`) -/

/-- A row of the daily-volume `$project` stage. -/
structure VolumeRow where
  day : String
  currency : String
  totalAmount : ℚ
  totalUSDAmount : ℚ
deriving DecidableEq, Repr

/-- The `matchStage` shared by the daily-volume and the percentile pipelines: `createdAt` in
range and `type` equal to "Wager". -/
def wagerMatch (collection : List Transaction) (fromDate toDate : ℤ) : List Transaction :=
  collection.filter (fun t => inRange fromDate toDate t && decide (t.Type_ = "Wager"))

/-- The daily-volume `groupStage`: `_id` is the pair of the day string, which the store derives
from `createdAt` by `dateToString` (format `%Y-%m-%d`), and the currency; it sums `amount` and
`usdAmount`. -/
def volumeGroup (dateToString : ℤ → String) (docs : List Transaction) :
    List ((String × String) × (ℚ × ℚ)) :=
  group (fun t => (dateToString t.CreatedAt, t.Currency)) (0, 0)
    (fun a t => (a.1 + t.Amount, a.2 + t.USDAmount)) docs

/-- The daily-volume `projectStage`. -/
def volumeProject (g : (String × String) × (ℚ × ℚ)) : VolumeRow :=
  { day := g.1.1, currency := g.1.2, totalAmount := g.2.1, totalUSDAmount := g.2.2 }

/-- The rows of the daily-volume pipeline `matchStage, groupStage, projectStage`. -/
def dailyWagerVolume (dateToString : ℤ → String) (collection : List Transaction)
    (fromDate toDate : ℤ) : List VolumeRow :=
  (volumeGroup dateToString (wagerMatch collection fromDate toDate)).map volumeProject

/-! ## Percentile pipeline and handler (`userWagerPercentileHandler`) -/

/-- A row of the percentile `groupStage`: `_id` is `$userId`, with the sum of `usdAmount`. -/
abbrev UserRow := ObjectID × ℚ

/-- The percentile pipeline `matchStage, groupStage`. -/
def userTotals (collection : List Transaction) (fromDate toDate : ℤ) : List UserRow :=
  group (fun t => t.UserID) (0 : ℚ) (fun a t => a + t.USDAmount)
    (wagerMatch collection fromDate toDate)

/-- The body of a JSON response. -/
inductive Body where
  | error (msg : String)
  | message (msg : String)
  | revenue (rows : List RevenueRow)
  | volume (rows : List VolumeRow)
  | percentile (p : ℚ)
deriving DecidableEq, Repr

/-- What a handler passes to `c.JSON`: the HTTP status and the body. -/
structure Response where
  status : ℕ
  body : Body
deriving DecidableEq, Repr

/-- Value of one hexadecimal digit, as `hex.Decode` reads it. -/
def hexDigit (c : Char) : Option ℕ :=
  if '0' ≤ c ∧ c ≤ '9' then some (c.toNat - '0'.toNat)
  else if 'a' ≤ c ∧ c ≤ 'f' then some (c.toNat - 'a'.toNat + 10)
  else if 'A' ≤ c ∧ c ≤ 'F' then some (c.toNat - 'A'.toNat + 10)
  else none

/-- Decoding of a list of hexadecimal digits, most significant first. -/
def hexValue : List Char → ℕ → Option ℕ
  | [], v => some v
  | c :: cs, v =>
    match hexDigit c with
    | some d => hexValue cs (16 * v + d)
    | none => none

/-- Function `primitive.ObjectIDFromHex`: the string must be 24 bytes long and consist of
hexadecimal digits. -/
def ObjectIDFromHex (s : String) : Option ObjectID :=
  if s.utf8ByteSize ≠ 24 then none
  else (hexValue s.toList 0).map ObjectID.mk

/-- The first `range results` loop of the handler: it counts the rows in `totalUsers` and
assigns `rank + 1` to `userRank` at each row of the target user. -/
def countLoop (userIDObj : ObjectID) : List UserRow → ℕ → ℤ × ℤ → ℤ × ℤ
  | [], _, st => st
  | result :: rest, rank, (totalUsers, userRank) =>
    countLoop userIDObj rest (rank + 1)
      (totalUsers + 1, if result.1 = userIDObj then (rank : ℤ) + 1 else userRank)

/-- The second `range results` loop of the handler: it assigns `rank + 1` to `userRank` at the
first row of the target user and breaks. -/
def rankLoop (userIDObj : ObjectID) : List UserRow → ℕ → ℤ → ℤ
  | [], _, userRank => userRank
  | result :: rest, rank, userRank =>
    if result.1 = userIDObj then (rank : ℤ) + 1
    else rankLoop userIDObj rest (rank + 1) userRank

/-- The handler `userWagerPercentileHandler` from the point where `cursor.All` has filled
`results`. -/
def percentileResponse (userID : String) (results : List UserRow) : Response :=
  if results.length = 0 then
    { status := 200, body := .message "No data found for the specified date range" }
  else
    match ObjectIDFromHex userID with
    | none => { status := 400, body := .error "Invalid user ID" }
    | some userIDObj =>
      let (totalUsers, userRank) := countLoop userIDObj results 0 (0, 0)
      let userRank := rankLoop userIDObj results 0 userRank
      let percentile := fmul (fdiv (float64OfInt userRank) (float64OfInt totalUsers)) 100
      { status := 200, body := .percentile percentile }

/-- Handler `userWagerPercentileHandler`. `fromDate` and `toDate` are the results of
`time.Parse` on the query parameters (`none` for a parse error); the store is taken to answer
the aggregation, so the two 500-status branches are not entered. -/
def userWagerPercentileHandler (userID : String) (fromDate toDate : Option ℤ)
    (collection : List Transaction) : Response :=
  match fromDate with
  | none => { status := 400, body := .error "Invalid 'from' date" }
  | some fromDate =>
    match toDate with
    | none => { status := 400, body := .error "Invalid 'to' date" }
    | some toDate => percentileResponse userID (userTotals collection fromDate toDate)

/-- Handler `grossGamingRevHandler` (and `controllers.GrossGamingRevHandler`, which calls
`models.RevenueQuery`), under the same conventions. -/
def grossGamingRevHandler (fromDate toDate : Option ℤ) (collection : List Transaction) :
    Response :=
  match fromDate with
  | none => { status := 400, body := .error "Invalid 'from' date" }
  | some fromDate =>
    match toDate with
    | none => { status := 400, body := .error "Invalid 'to' date" }
    | some toDate => { status := 200, body := .revenue (RevenueQuery collection fromDate toDate) }

/-- Handler `dailyWagerVolumeHandler`, under the same conventions. -/
def dailyWagerVolumeHandler (dateToString : ℤ → String) (fromDate toDate : Option ℤ)
    (collection : List Transaction) : Response :=
  match fromDate with
  | none => { status := 400, body := .error "Invalid 'from' date" }
  | some fromDate =>
    match toDate with
    | none => { status := 400, body := .error "Invalid 'to' date" }
    | some toDate =>
      let results := dailyWagerVolume dateToString collection fromDate toDate
      if results.length = 0 then
        { status := 200, body := .message "No data found for the specified date range" }
      else { status := 200, body := .volume results }

/-- Midnight UTC of 2024-01-01, the instant `time.Parse` returns for "2024-01-01". -/
def jan01 : ℤ := 1704067200 * Second

/-- Midnight UTC of 2024-01-31. -/
def jan31 : ℤ := 1706659200 * Second

/-- Two user identifiers (24 hexadecimal digits each). -/
def userA : ObjectID := ⟨0x65a000000000000000000001⟩

/-- The second user identifier. -/
def userB : ObjectID := ⟨0x65a000000000000000000002⟩

/-- The revenue scenario: in January 2024, two USDT Wagers of 100 and 200 and one USDT Payout
of 50 (the rate of USDT is 1, so `usdAmount = amount`). -/
def scenarioLedger : List Transaction :=
  [ { ID := ⟨1⟩, CreatedAt := jan01 + 3600 * Second, UserID := userA, RoundID := "r1",
      Type_ := "Wager", Amount := 100, Currency := "USDT", USDAmount := 100 },
    { ID := ⟨2⟩, CreatedAt := jan01 + 7200 * Second, UserID := userA, RoundID := "r1",
      Type_ := "Payout", Amount := 50, Currency := "USDT", USDAmount := 50 },
    { ID := ⟨3⟩, CreatedAt := jan01 + 90000 * Second, UserID := userB, RoundID := "r2",
      Type_ := "Wager", Amount := 200, Currency := "USDT", USDAmount := 200 } ]

/-- The hexadecimal form of `userA`, as it arrives in the request path. -/
def userAHex : String := "65a000000000000000000001"

/-- The hexadecimal form of `userB`. -/
def userBHex : String := "65a000000000000000000002"

/-- A ledger in which only `userB` wagers in January 2024. -/
def otherUserLedger : List Transaction :=
  [ { ID := ⟨1⟩, CreatedAt := jan01 + 3600 * Second, UserID := userB, RoundID := "r1",
      Type_ := "Wager", Amount := 100, Currency := "USDT", USDAmount := 100 } ]

/-- A ledger in which `userA` wagers 200 USD and, after that, `userB` wagers 100 USD. -/
def unsortedLedger : List Transaction :=
  [ { ID := ⟨1⟩, CreatedAt := jan01 + 3600 * Second, UserID := userA, RoundID := "r1",
      Type_ := "Wager", Amount := 200, Currency := "USDT", USDAmount := 200 },
    { ID := ⟨2⟩, CreatedAt := jan01 + 7200 * Second, UserID := userB, RoundID := "r2",
      Type_ := "Wager", Amount := 100, Currency := "USDT", USDAmount := 100 } ]

/-- A ledger whose only event, a Wager of `userA`, lies on the day after the January range. -/
def lateLedger : List Transaction :=
  [ { ID := ⟨9⟩, CreatedAt := jan31 + 86400 * Second, UserID := userA, RoundID := "r9",
      Type_ := "Wager", Amount := 10, Currency := "BTC", USDAmount := 500000 } ]

/-- A day function for the scenario ledger: the day strings of its two days. -/
def sampleDay (t : ℤ) : String :=
  if t < jan01 + 86400 * Second then "2024-01-01" else "2024-01-02"

/-- The accumulators of the USDT group of the scenario ledger. -/
def scenarioTotals : RevenueTotals :=
  { totalWagered := 300, totalPayout := 50, totalWageredUSD := 300, totalPayoutUSD := 50 }

/-! ## Batch loader: every generated event is inserted once -/

theorem foldl_append_singleton (ts b : List Transaction) :
    ts.foldl (fun b t => b ++ [t]) b = b ++ ts := by
  induction ts generalizing b with
  | nil => simp
  | cons t ts ih => simp [ih]

theorem roundEvents_length (userIDs : List ObjectID) (d : LoadDraws) :
    (roundEvents userIDs d).length = 2 := by
  simp [roundEvents, generateRoundTransactions]

theorem loadStep_inserted (batchSize : ℕ) (userIDs : List ObjectID) (st : LoadState)
    (d : LoadDraws) :
    (loadStep batchSize userIDs st d).dispatched.flatten ++ (loadStep batchSize userIDs st d).batch
      = (st.dispatched.flatten ++ st.batch) ++ roundEvents userIDs d := by
  unfold loadStep
  simp only [foldl_append_singleton]
  split <;> simp

theorem foldl_loadStep_inserted (batchSize : ℕ) (userIDs : List ObjectID)
    (rounds : List LoadDraws) (st : LoadState) :
    (rounds.foldl (loadStep batchSize userIDs) st).dispatched.flatten
        ++ (rounds.foldl (loadStep batchSize userIDs) st).batch
      = (st.dispatched.flatten ++ st.batch) ++ (rounds.map (roundEvents userIDs)).flatten := by
  induction rounds generalizing st with
  | nil => simp
  | cons d ds ih =>
    simp only [List.foldl_cons, List.map_cons, List.flatten_cons]
    rw [ih, loadStep_inserted, List.append_assoc]

theorem inserted_eq (batchSize : ℕ) (userIDs : List ObjectID) (rounds : List LoadDraws) :
    (LoadData batchSize userIDs rounds).inserted
      = (rounds.map (roundEvents userIDs)).flatten := by
  have h := foldl_loadStep_inserted batchSize userIDs rounds { batch := [], dispatched := [] }
  simp only [List.flatten_nil, List.append_nil, List.nil_append] at h
  unfold LoadResult.inserted LoadData
  rw [← h]
  congr 1
  by_cases hb : 0 < (rounds.foldl (loadStep batchSize userIDs)
      { batch := [], dispatched := [] }).batch.length
  · simp [hb]
  · have : (rounds.foldl (loadStep batchSize userIDs)
        { batch := [], dispatched := [] }).batch = [] := by
      simpa using hb
    simp [this]

theorem flatten_length_two (userIDs : List ObjectID) (rounds : List LoadDraws) :
    ((rounds.map (roundEvents userIDs)).flatten).length = 2 * rounds.length := by
  induction rounds with
  | nil => simp
  | cons d ds ih =>
    simp only [List.map_cons, List.flatten_cons, List.length_append, List.length_cons, ih,
      roundEvents_length]
    omega

/-- C7: for every number of rounds and every batch size of at least 1, the batches `LoadData`
dispatches from the round loop, in dispatch order, followed by the final insert of the remaining
buffer, concatenate to exactly the sequence of generated events, two per round in generation
order. -/
theorem LoadData_inserts_each_event_once (batchSize : ℕ) (hb : 1 ≤ batchSize)
    (userIDs : List ObjectID) (rounds : List LoadDraws) :
    (LoadData batchSize userIDs rounds).inserted = (rounds.map (roundEvents userIDs)).flatten
      ∧ (∀ d ∈ rounds, (roundEvents userIDs d).length = 2)
      ∧ (LoadData batchSize userIDs rounds).inserted.length = 2 * rounds.length := by
  have _ := hb
  refine ⟨inserted_eq batchSize userIDs rounds, fun d _ => roundEvents_length userIDs d, ?_⟩
  rw [inserted_eq, flatten_length_two]

/-- C7 at a concrete input: three rounds, batch size 4. -/
theorem LoadData_inserts_each_event_once_witness :
    1 ≤ 4 ∧
    ((LoadData 4 samplePool [sampleLoad, sampleLoad, sampleLoad]).inserted
        = ([sampleLoad, sampleLoad, sampleLoad].map (roundEvents samplePool)).flatten
      ∧ (∀ d ∈ [sampleLoad, sampleLoad, sampleLoad], (roundEvents samplePool d).length = 2)
      ∧ (LoadData 4 samplePool [sampleLoad, sampleLoad, sampleLoad]).inserted.length
          = 2 * [sampleLoad, sampleLoad, sampleLoad].length) :=
  ⟨by decide,
    LoadData_inserts_each_event_once 4 (by decide) samplePool [sampleLoad, sampleLoad, sampleLoad]⟩

/-! ## Loader scenario: four rounds, batch size two -/

/-- C10, as stated, fails: with batch size 2 the four rounds are dispatched as four batches of
two events each, not as two batches of four. -/
theorem LoadData_four_rounds_batch_two_not_two_batches :
    (LoadData 2 samplePool [sampleLoad, sampleLoad, sampleLoad, sampleLoad]).dispatched.map
        List.length = [2, 2, 2, 2]
      ∧ ¬ ((LoadData 2 samplePool
              [sampleLoad, sampleLoad, sampleLoad, sampleLoad]).dispatched.length = 2
            ∧ ∀ b ∈ (LoadData 2 samplePool
              [sampleLoad, sampleLoad, sampleLoad, sampleLoad]).dispatched, b.length = 4) := by
  have h : (LoadData 2 samplePool [sampleLoad, sampleLoad, sampleLoad, sampleLoad]).dispatched.map
      List.length = [2, 2, 2, 2] := by
    simp [LoadData, loadStep, roundEvents, generateRoundTransactions]
  refine ⟨h, fun hc => ?_⟩
  have hl := congrArg List.length h
  simp only [List.length_map, List.length_cons, List.length_nil] at hl
  omega

/-- C10, amended: loading 4 rounds with batch size 2 dispatches exactly 4 batches from the round
loop, one per round and of 2 events each, and leaves nothing for the final insert. -/
theorem LoadData_four_rounds_batch_two (userIDs : List ObjectID) (d₁ d₂ d₃ d₄ : LoadDraws) :
    (LoadData 2 userIDs [d₁, d₂, d₃, d₄]).dispatched
        = [roundEvents userIDs d₁, roundEvents userIDs d₂, roundEvents userIDs d₃,
            roundEvents userIDs d₄]
      ∧ (LoadData 2 userIDs [d₁, d₂, d₃, d₄]).dispatched.length = 4
      ∧ (∀ b ∈ (LoadData 2 userIDs [d₁, d₂, d₃, d₄]).dispatched, b.length = 2)
      ∧ (LoadData 2 userIDs [d₁, d₂, d₃, d₄]).final = none := by
  have h : ∀ d, loadStep 2 userIDs { batch := [], dispatched := [] } d
      = { batch := [], dispatched := [roundEvents userIDs d] } := by
    intro d
    simp [loadStep, foldl_append_singleton, roundEvents_length]
  have hs : ∀ (ds : List (List Transaction)) d,
      loadStep 2 userIDs { batch := [], dispatched := ds } d
        = { batch := [], dispatched := ds ++ [roundEvents userIDs d] } := by
    intro ds d
    simp [loadStep, foldl_append_singleton, roundEvents_length]
  have hd : (LoadData 2 userIDs [d₁, d₂, d₃, d₄]).dispatched
      = [roundEvents userIDs d₁, roundEvents userIDs d₂, roundEvents userIDs d₃,
          roundEvents userIDs d₄] := by
    simp [LoadData, hs]
  have hf : (LoadData 2 userIDs [d₁, d₂, d₃, d₄]).final = none := by
    simp [LoadData, hs]
  refine ⟨hd, ?_, ?_, hf⟩
  · rw [hd]; rfl
  · rw [hd]
    intro b hb
    simp only [List.mem_cons, List.mem_singleton, List.not_mem_nil, or_false] at hb
    rcases hb with rfl | rfl | rfl | rfl <;> exact roundEvents_length userIDs _

/-! ## Generator: the payout follows the wager -/

/-- C8, as stated, fails: when `rng.Intn(3600)` yields 3599 the payout is 3659 seconds after the
wager, and no offset below 3600 seconds accounts for it. -/
theorem payout_offset_exceeds_3600 :
    ∃ w p, generateRoundTransactions lateRound "r" ⟨100⟩ = [w, p]
      ∧ p.CreatedAt = w.CreatedAt + 3659 * Second
      ∧ ¬ ∃ off : ℤ, 60 ≤ off ∧ off < 3600 ∧ p.CreatedAt = w.CreatedAt + off * Second := by
  refine ⟨_, _, rfl, ?_, ?_⟩
  · simp [lateRound, Intn]
  · rintro ⟨off, _, h2, h3⟩
    simp [lateRound, Intn, Second] at h3
    omega

/-- C8, amended: in every round of `generateRoundTransactions` the Payout event is created a whole
number of seconds after the paired Wager event, at least 60 and less than 3660, hence strictly
later. -/
theorem payout_after_wager (d : RoundDraws) (roundID : String) (userID : ObjectID) :
    ∃ w p, generateRoundTransactions d roundID userID = [w, p]
      ∧ w.Type_ = "Wager" ∧ p.Type_ = "Payout"
      ∧ (∃ off : ℤ, 60 ≤ off ∧ off < 3660 ∧ p.CreatedAt = w.CreatedAt + off * Second)
      ∧ w.CreatedAt < p.CreatedAt := by
  refine ⟨_, _, rfl, rfl, rfl, ⟨((Intn 3600 d.offset : ℕ) : ℤ) + 60, ?_, ?_, rfl⟩, ?_⟩
  · omega
  · have : Intn 3600 d.offset < 3600 := Nat.mod_lt _ (by norm_num)
    omega
  · show randomDate d.now d.pastYear d.date
      < randomDate d.now d.pastYear d.date + ((Intn 3600 d.offset : ℕ) + 60 : ℤ) * Second
    have : (0 : ℤ) < ((Intn 3600 d.offset : ℕ) + 60 : ℤ) * Second := by
      have h1 : (0 : ℤ) < Second := by decide
      have h2 : (0 : ℤ) < ((Intn 3600 d.offset : ℕ) : ℤ) + 60 := by omega
      exact Int.mul_pos h2 h1
    omega

/-! ## The `$group` stage: keys and sums -/

theorem groupInsert_keys {D K A : Type} [DecidableEq K] (key : D → K) (init : A)
    (acc : A → D → A) (gs : List (K × A)) (doc : D) :
    (groupInsert key init acc gs doc).map Prod.fst
      = if key doc ∈ gs.map Prod.fst then gs.map Prod.fst else gs.map Prod.fst ++ [key doc] := by
  induction gs with
  | nil => simp [groupInsert]
  | cons g gs ih =>
    obtain ⟨k, a⟩ := g
    by_cases hk : k = key doc
    · simp [groupInsert, hk]
    · have hk2 : ¬ key doc = k := fun h => hk h.symm
      simp only [groupInsert, hk, if_false, List.map_cons, ih, List.mem_cons, hk2, false_or]
      split <;> simp

theorem groupInsert_keys_nodup {D K A : Type} [DecidableEq K] (key : D → K) (init : A)
    (acc : A → D → A) (gs : List (K × A)) (doc : D) (h : (gs.map Prod.fst).Nodup) :
    ((groupInsert key init acc gs doc).map Prod.fst).Nodup := by
  rw [groupInsert_keys]
  split
  · exact h
  · next hn =>
    rw [List.nodup_append]
    refine ⟨h, List.nodup_singleton _, ?_⟩
    intro x hx hx2
    simp only [List.mem_singleton] at hx2
    exact hn (hx2 ▸ hx)

theorem groupInsert_mem_keys {D K A : Type} [DecidableEq K] (key : D → K) (init : A)
    (acc : A → D → A) (gs : List (K × A)) (doc : D) (k : K) :
    k ∈ (groupInsert key init acc gs doc).map Prod.fst ↔ k ∈ gs.map Prod.fst ∨ k = key doc := by
  rw [groupInsert_keys]
  split
  · next hm =>
    constructor
    · exact fun h => Or.inl h
    · rintro (h | h)
      · exact h
      · exact h ▸ hm
  · simp

theorem foldl_groupInsert_keys_nodup {D K A : Type} [DecidableEq K] (key : D → K) (init : A)
    (acc : A → D → A) (docs : List D) (gs : List (K × A)) (h : (gs.map Prod.fst).Nodup) :
    ((docs.foldl (groupInsert key init acc) gs).map Prod.fst).Nodup := by
  induction docs generalizing gs with
  | nil => exact h
  | cons d ds ih => exact ih _ (groupInsert_keys_nodup key init acc gs d h)

theorem foldl_groupInsert_mem_keys {D K A : Type} [DecidableEq K] (key : D → K) (init : A)
    (acc : A → D → A) (docs : List D) (gs : List (K × A)) (k : K) :
    k ∈ (docs.foldl (groupInsert key init acc) gs).map Prod.fst
      ↔ k ∈ gs.map Prod.fst ∨ ∃ d ∈ docs, key d = k := by
  induction docs generalizing gs with
  | nil => simp
  | cons d ds ih =>
    rw [List.foldl_cons, ih, groupInsert_mem_keys]
    simp only [List.mem_cons, exists_eq_or_imp]
    constructor
    · rintro ((h | h) | h)
      · exact Or.inl h
      · exact Or.inr (Or.inl h.symm)
      · exact Or.inr (Or.inr h)
    · rintro (h | h | h)
      · exact Or.inl (Or.inl h)
      · exact Or.inl (Or.inr h.symm)
      · exact Or.inr h

theorem group_keys_nodup {D K A : Type} [DecidableEq K] (key : D → K) (init : A)
    (acc : A → D → A) (docs : List D) : ((group key init acc docs).map Prod.fst).Nodup :=
  foldl_groupInsert_keys_nodup key init acc docs [] List.nodup_nil

theorem group_mem_keys {D K A : Type} [DecidableEq K] (key : D → K) (init : A)
    (acc : A → D → A) (docs : List D) (k : K) :
    k ∈ (group key init acc docs).map Prod.fst ↔ ∃ d ∈ docs, key d = k := by
  unfold group
  rw [foldl_groupInsert_mem_keys]
  simp

/-- Sum of a measure `m` of the accumulators over the groups whose key satisfies `P`. -/
theorem groupInsert_sum {D K A : Type} [DecidableEq K] (key : D → K) (init : A)
    (acc : A → D → A) (m : A → ℚ) (f : D → ℚ) (hinit : m init = 0)
    (hacc : ∀ a d, m (acc a d) = m a + f d) (P : K → Bool) (gs : List (K × A)) (doc : D) :
    (((groupInsert key init acc gs doc).filter (fun g => P g.1)).map (fun g => m g.2)).sum
      = ((gs.filter (fun g => P g.1)).map (fun g => m g.2)).sum
        + (if P (key doc) then f doc else 0) := by
  induction gs with
  | nil =>
    by_cases hp : P (key doc) = true
    · simp [groupInsert, hp, hacc, hinit]
    · simp [groupInsert, hp]
  | cons g gs ih =>
    obtain ⟨k, a⟩ := g
    by_cases hk : k = key doc
    · subst hk
      by_cases hp : P (key doc) = true
      · simp [groupInsert, hp, hacc]; ring
      · simp [groupInsert, hp]
    · by_cases hp : P k = true
      · simp only [groupInsert, hk, if_false, List.filter_cons, hp, if_true, List.map_cons,
          List.sum_cons, ih]
        ring
      · simp only [groupInsert, hk, if_false, List.filter_cons, hp]
        exact ih

theorem foldl_groupInsert_sum {D K A : Type} [DecidableEq K] (key : D → K) (init : A)
    (acc : A → D → A) (m : A → ℚ) (f : D → ℚ) (hinit : m init = 0)
    (hacc : ∀ a d, m (acc a d) = m a + f d) (P : K → Bool) (docs : List D)
    (gs : List (K × A)) :
    (((docs.foldl (groupInsert key init acc) gs).filter (fun g => P g.1)).map
        (fun g => m g.2)).sum
      = ((gs.filter (fun g => P g.1)).map (fun g => m g.2)).sum
        + ((docs.filter (fun d => P (key d))).map f).sum := by
  induction docs generalizing gs with
  | nil => simp
  | cons d ds ih =>
    rw [List.foldl_cons, ih, groupInsert_sum key init acc m f hinit hacc]
    by_cases hp : P (key d) = true
    · simp [hp]; ring
    · simp [hp]

theorem group_sum {D K A : Type} [DecidableEq K] (key : D → K) (init : A)
    (acc : A → D → A) (m : A → ℚ) (f : D → ℚ) (hinit : m init = 0)
    (hacc : ∀ a d, m (acc a d) = m a + f d) (P : K → Bool) (docs : List D) :
    (((group key init acc docs).filter (fun g => P g.1)).map (fun g => m g.2)).sum
      = ((docs.filter (fun d => P (key d))).map f).sum := by
  unfold group
  rw [foldl_groupInsert_sum key init acc m f hinit hacc]
  simp

theorem filter_key_eq_of_nodup {K A : Type} [DecidableEq K] (gs : List (K × A))
    (h : (gs.map Prod.fst).Nodup) (g : K × A) (hg : g ∈ gs) :
    gs.filter (fun x => decide (x.1 = g.1)) = [g] := by
  induction gs with
  | nil => simp at hg
  | cons x xs ih =>
    simp only [List.map_cons, List.nodup_cons, List.mem_map, not_exists, not_and] at h
    rcases List.mem_cons.mp hg with rfl | hmem
    · have : xs.filter (fun x => decide (x.1 = g.1)) = [] := by
        rw [List.filter_eq_nil_iff]
        intro y hy
        simp only [decide_eq_true_eq]
        exact h.1 y hy
      simp [List.filter_cons, this]
    · have hne : ¬ x.1 = g.1 := fun he => h.1 g hmem he.symm
      simp [List.filter_cons, hne, ih h.2 hmem]

/-- The accumulated measure of one group is the sum of the contributions of its documents. -/
theorem group_value {D K A : Type} [DecidableEq K] (key : D → K) (init : A)
    (acc : A → D → A) (m : A → ℚ) (f : D → ℚ) (hinit : m init = 0)
    (hacc : ∀ a d, m (acc a d) = m a + f d) (docs : List D) (g : K × A)
    (hg : g ∈ group key init acc docs) :
    m g.2 = ((docs.filter (fun d => decide (key d = g.1))).map f).sum := by
  have h := group_sum key init acc m f hinit hacc (fun k => decide (k = g.1)) docs
  rw [filter_key_eq_of_nodup _ (group_keys_nodup key init acc docs) g hg] at h
  simpa using h

/-! ## Revenue and daily-volume pipelines -/

theorem sum_map_cond {T : Type} (l : List T) (q : T → Bool) (f : T → ℚ) :
    (l.map (fun t => if q t = true then f t else 0)).sum = ((l.filter q).map f).sum := by
  induction l with
  | nil => simp
  | cons x xs ih =>
    by_cases hq : q x = true
    · simp [List.filter_cons, hq, ih]
    · simp [List.filter_cons, hq, ih]

theorem revenue_group_sum (docs : List Transaction) (g : String × RevenueTotals)
    (hg : g ∈ revenueGroup docs) (m : RevenueTotals → ℚ) (ty : String) (f : Transaction → ℚ)
    (hinit : m revenueInit = 0)
    (hacc : ∀ a t, m (revenueAcc a t) = m a + (if t.Type_ = ty then f t else 0)) :
    m g.2 = ((docs.filter (fun t => decide (t.Currency = g.1) && decide (t.Type_ = ty))).map
      f).sum := by
  have h := group_value (fun t : Transaction => t.Currency) revenueInit revenueAcc m
    (fun t => if t.Type_ = ty then f t else 0) hinit hacc docs g hg
  rw [h]
  have h2 := sum_map_cond (docs.filter (fun d => decide (d.Currency = g.1)))
    (fun t => decide (t.Type_ = ty)) f
  simp only [decide_eq_true_eq] at h2
  rw [h2, List.filter_filter]
  congr 2
  apply List.filter_congr
  intro t _
  exact Bool.and_comm _ _

/-- C5: for every ledger and every date range with `fromDate ≤ toDate`, the revenue pipeline
(the handler answers 200 with the rows of `RevenueQuery`) returns exactly one row per currency
that has a Transaction with `createdAt` in `[fromDate, toDate]`, and in that row `ggr` is the sum
of `amount` over the in-range Wager events of the currency minus the sum over its in-range
Payout events, and `ggrUSD` the same with `usdAmount`. -/
theorem RevenueQuery_ggr (collection : List Transaction) (fromDate toDate : ℤ)
    (hrange : fromDate ≤ toDate) :
    grossGamingRevHandler (some fromDate) (some toDate) collection
        = { status := 200, body := .revenue (RevenueQuery collection fromDate toDate) }
      ∧ ((RevenueQuery collection fromDate toDate).map (fun r => r.currency)).Nodup
      ∧ (∀ c, c ∈ (RevenueQuery collection fromDate toDate).map (fun r => r.currency)
            ↔ ∃ t ∈ collection, fromDate ≤ t.CreatedAt ∧ t.CreatedAt ≤ toDate ∧ t.Currency = c)
      ∧ ∀ r ∈ RevenueQuery collection fromDate toDate,
          r.ggr
              = (((revenueMatch collection fromDate toDate).filter (fun t =>
                    decide (t.Currency = r.currency) && decide (t.Type_ = "Wager"))).map
                  (fun t => t.Amount)).sum
                - (((revenueMatch collection fromDate toDate).filter (fun t =>
                    decide (t.Currency = r.currency) && decide (t.Type_ = "Payout"))).map
                  (fun t => t.Amount)).sum
            ∧ r.ggrUSD
              = (((revenueMatch collection fromDate toDate).filter (fun t =>
                    decide (t.Currency = r.currency) && decide (t.Type_ = "Wager"))).map
                  (fun t => t.USDAmount)).sum
                - (((revenueMatch collection fromDate toDate).filter (fun t =>
                    decide (t.Currency = r.currency) && decide (t.Type_ = "Payout"))).map
                  (fun t => t.USDAmount)).sum := by
  have _ := hrange
  have hkeys : (RevenueQuery collection fromDate toDate).map (fun r => r.currency)
      = (revenueGroup (revenueMatch collection fromDate toDate)).map Prod.fst := by
    simp [RevenueQuery, revenueProject, Function.comp_def]
  refine ⟨rfl, ?_, ?_, ?_⟩
  · rw [hkeys]
    exact group_keys_nodup _ _ _ _
  · intro c
    rw [hkeys, revenueGroup, group_mem_keys]
    simp only [revenueMatch, List.mem_filter, inRange, Bool.and_eq_true, decide_eq_true_eq]
    constructor
    · rintro ⟨t, ⟨ht, h1, h2⟩, h3⟩
      exact ⟨t, ht, h1, h2, h3⟩
    · rintro ⟨t, ht, h1, h2, h3⟩
      exact ⟨t, ⟨ht, h1, h2⟩, h3⟩
  · intro r hr
    obtain ⟨g, hg, rfl⟩ := List.mem_map.mp hr
    have hw := revenue_group_sum _ g hg (fun a => a.totalWagered) "Wager" (fun t => t.Amount)
      rfl (fun _ _ => rfl)
    have hp := revenue_group_sum _ g hg (fun a => a.totalPayout) "Payout" (fun t => t.Amount)
      rfl (fun _ _ => rfl)
    have hwu := revenue_group_sum _ g hg (fun a => a.totalWageredUSD) "Wager"
      (fun t => t.USDAmount) rfl (fun _ _ => rfl)
    have hpu := revenue_group_sum _ g hg (fun a => a.totalPayoutUSD) "Payout"
      (fun t => t.USDAmount) rfl (fun _ _ => rfl)
    simp only [revenueProject]
    rw [← hw, ← hp, ← hwu, ← hpu]
    exact ⟨rfl, rfl⟩

/-- C5 at the scenario of the specification: USDT Wagers of 100 and 200 and one Payout of 50 in
January 2024 give the single row `ggr(USDT) = 250`. -/
theorem RevenueQuery_ggr_witness :
    jan01 ≤ jan31
      ∧ RevenueQuery scenarioLedger jan01 jan31 = [{ currency := "USDT", ggr := 250, ggrUSD := 250 }]
      ∧ ∀ r ∈ RevenueQuery scenarioLedger jan01 jan31,
          r.ggr
            = (((revenueMatch scenarioLedger jan01 jan31).filter (fun t =>
                  decide (t.Currency = r.currency) && decide (t.Type_ = "Wager"))).map
                (fun t => t.Amount)).sum
              - (((revenueMatch scenarioLedger jan01 jan31).filter (fun t =>
                  decide (t.Currency = r.currency) && decide (t.Type_ = "Payout"))).map
                (fun t => t.Amount)).sum :=
  ⟨by decide, by decide!,
    fun r hr => ((RevenueQuery_ggr scenarioLedger jan01 jan31 (by decide)).2.2.2 r hr).1⟩

/-- C6: for every ledger, date range and currency, the `totalAmount` of the rows of the
daily-volume pipeline for that currency, summed over all days, equals the `totalWagered` of the
group that the revenue `groupStage` forms for the currency over the same range; a currency
without a revenue group has no daily row either (the sum is 0). The rows are what
`dailyWagerVolumeHandler` answers with whenever there is one. -/
theorem daily_volume_sums_to_totalWagered (dateToString : ℤ → String)
    (collection : List Transaction) (fromDate toDate : ℤ) (c : String) :
    (∀ g ∈ revenueGroup (revenueMatch collection fromDate toDate), g.1 = c →
        (((dailyWagerVolume dateToString collection fromDate toDate).filter
            (fun r => decide (r.currency = c))).map (fun r => r.totalAmount)).sum
          = g.2.totalWagered)
      ∧ (c ∉ (revenueGroup (revenueMatch collection fromDate toDate)).map Prod.fst →
          (dailyWagerVolume dateToString collection fromDate toDate).filter
            (fun r => decide (r.currency = c)) = [])
      ∧ (dailyWagerVolume dateToString collection fromDate toDate ≠ [] →
          dailyWagerVolumeHandler dateToString (some fromDate) (some toDate) collection
            = { status := 200
                body := .volume (dailyWagerVolume dateToString collection fromDate toDate) })
      := by
  have hsum : (((dailyWagerVolume dateToString collection fromDate toDate).filter
        (fun r => decide (r.currency = c))).map (fun r => r.totalAmount)).sum
      = (((wagerMatch collection fromDate toDate).filter
          (fun t => decide (t.Currency = c))).map (fun t => t.Amount)).sum := by
    have h := group_sum (fun t : Transaction => (dateToString t.CreatedAt, t.Currency))
      ((0, 0) : ℚ × ℚ) (fun a t => (a.1 + t.Amount, a.2 + t.USDAmount)) (fun a => a.1)
      (fun t => t.Amount) rfl (fun _ _ => rfl) (fun k => decide (k.2 = c))
      (wagerMatch collection fromDate toDate)
    rw [← h]
    simp [dailyWagerVolume, volumeGroup, volumeProject, List.filter_map, Function.comp_def]
  refine ⟨?_, ?_, ?_⟩
  · rintro g hg rfl
    rw [hsum, revenue_group_sum _ g hg (fun a => a.totalWagered) "Wager" (fun t => t.Amount)
      rfl (fun _ _ => rfl)]
    simp only [wagerMatch, revenueMatch, List.filter_filter]
    congr 2
    apply List.filter_congr
    intro t _
    cases inRange fromDate toDate t <;> cases decide (t.Currency = g.1) <;> simp
  · intro hc
    rw [revenueGroup, group_mem_keys] at hc
    rw [List.filter_eq_nil_iff]
    intro r hr
    simp only [decide_eq_true_eq]
    intro hrc
    apply hc
    obtain ⟨g, hg, rfl⟩ := List.mem_map.mp hr
    have hk : g.1 ∈ (volumeGroup dateToString (wagerMatch collection fromDate toDate)).map
        Prod.fst := List.mem_map_of_mem _ hg
    rw [volumeGroup, group_mem_keys] at hk
    obtain ⟨t, ht, hkey⟩ := hk
    refine ⟨t, ?_, ?_⟩
    · simp only [wagerMatch, List.mem_filter, Bool.and_eq_true] at ht
      simp only [revenueMatch, List.mem_filter]
      exact ⟨ht.1, ht.2.1⟩
    · have : t.Currency = g.1.2 := by rw [← hkey]
      rw [this]
      exact hrc
  · intro hrows
    have hlen : ¬ (dailyWagerVolume dateToString collection fromDate toDate).length = 0 :=
      fun h => hrows (List.length_eq_zero.mp h)
    simp only [dailyWagerVolumeHandler, hlen, if_false]

/-- C6 at the scenario ledger: the USDT group of the revenue stage has `totalWagered = 300`, and
the daily rows of USDT (100 on the first day, 200 on the second) sum to it. -/
theorem daily_volume_sums_to_totalWagered_witness :
    ("USDT", scenarioTotals) ∈ revenueGroup (revenueMatch scenarioLedger jan01 jan31)
      ∧ scenarioTotals.totalWagered = 300
      ∧ (dailyWagerVolume sampleDay scenarioLedger jan01 jan31).map (fun r => r.totalAmount)
          = [100, 200]
      ∧ (((dailyWagerVolume sampleDay scenarioLedger jan01 jan31).filter
            (fun r => decide (r.currency = "USDT"))).map (fun r => r.totalAmount)).sum
          = scenarioTotals.totalWagered :=
  ⟨by decide!, rfl, by decide!,
    (daily_volume_sums_to_totalWagered sampleDay scenarioLedger jan01 jan31 "USDT").1
      ("USDT", scenarioTotals) (by decide!) rfl⟩

/-! ## Rounding: nearest integer and nearest float64 -/

theorem roundHalfEven_sub_le (q : ℚ) : |(roundHalfEven q : ℚ) - q| ≤ 1 / 2 := by
  have h1 : ((⌊q⌋ : ℤ) : ℚ) ≤ q := Int.floor_le q
  have h2 : q < ((⌊q⌋ : ℤ) : ℚ) + 1 := Int.lt_floor_add_one q
  rw [abs_le]
  unfold roundHalfEven
  simp only
  split_ifs with ha hb hc
  · constructor <;> linarith
  · push_cast; constructor <;> linarith
  · have hb2 : q - ⌊q⌋ = 1 / 2 := le_antisymm (not_lt.mp hb) (not_lt.mp ha)
    constructor <;> linarith
  · have hb2 : q - ⌊q⌋ = 1 / 2 := le_antisymm (not_lt.mp hb) (not_lt.mp ha)
    push_cast; constructor <;> linarith

theorem roundHalfEven_eq_of_near (q : ℚ) (n : ℤ) (h : |q - n| < 1 / 2) :
    roundHalfEven q = n := by
  have h1 := roundHalfEven_sub_le q
  rw [abs_le] at h1
  rw [abs_lt] at h
  have h3 : ((roundHalfEven q : ℤ) : ℚ) - n < 1 := by linarith [h1.2, h.2]
  have h4 : (-1 : ℚ) < ((roundHalfEven q : ℤ) : ℚ) - n := by linarith [h1.1, h.1]
  have h5 : roundHalfEven q - n < 1 := by exact_mod_cast h3
  have h6 : -1 < roundHalfEven q - n := by exact_mod_cast h4
  omega

theorem roundHalfEven_intCast (n : ℤ) : roundHalfEven (n : ℚ) = n :=
  roundHalfEven_eq_of_near _ n (by simp)

theorem roundHalfEven_mono {q r : ℚ} (h : q ≤ r) : roundHalfEven q ≤ roundHalfEven r := by
  rcases eq_or_lt_of_le h with rfl | hlt
  · exact le_refl _
  · by_contra hc
    have hc2 : roundHalfEven r + 1 ≤ roundHalfEven q := by omega
    have hc3 : ((roundHalfEven r : ℤ) : ℚ) + 1 ≤ (roundHalfEven q : ℤ) := by exact_mod_cast hc2
    have h1 := roundHalfEven_sub_le q
    have h2 := roundHalfEven_sub_le r
    rw [abs_le] at h1 h2
    linarith [h1.2, h2.1]

theorem two_zpow_pos (e : ℤ) : (0 : ℚ) < (2 : ℚ) ^ e := zpow_pos (by norm_num) e

theorem zpow_log_le {q : ℚ} (hq : 0 < q) : (2 : ℚ) ^ Int.log 2 q ≤ q := by
  have h := Int.zpow_log_le_self (b := 2) (r := q) (by norm_num) hq
  simpa using h

theorem lt_zpow_log_succ (q : ℚ) : q < (2 : ℚ) ^ (Int.log 2 q + 1) := by
  have h := Int.lt_zpow_succ_log_self (b := 2) (by norm_num) q
  simpa using h

theorem significand_ge {q : ℚ} (hq : 0 < q) :
    (2 : ℚ) ^ (52 : ℤ) ≤ q / (2 : ℚ) ^ (Int.log 2 q - 52) := by
  rw [le_div_iff₀ (two_zpow_pos _), ← zpow_add₀ (by norm_num : (2 : ℚ) ≠ 0)]
  have : (52 : ℤ) + (Int.log 2 q - 52) = Int.log 2 q := by ring
  rw [this]
  exact zpow_log_le hq

theorem significand_lt (q : ℚ) :
    q / (2 : ℚ) ^ (Int.log 2 q - 52) < (2 : ℚ) ^ (53 : ℤ) := by
  rw [div_lt_iff₀ (two_zpow_pos _), ← zpow_add₀ (by norm_num : (2 : ℚ) ≠ 0)]
  have : (53 : ℤ) + (Int.log 2 q - 52) = Int.log 2 q + 1 := by ring
  rw [this]
  exact lt_zpow_log_succ q

theorem roundFloat64_of_pos {q : ℚ} (hq : 0 < q) :
    roundFloat64 q
      = (roundHalfEven (q / (2 : ℚ) ^ (Int.log 2 q - 52)) : ℚ) * (2 : ℚ) ^ (Int.log 2 q - 52) := by
  unfold roundFloat64
  rw [if_neg (ne_of_gt hq), abs_of_pos hq]

theorem roundFloat64_zero : roundFloat64 0 = 0 := by
  simp [roundFloat64]

/-- The rounded significand of a positive number lies between `2^52` and `2^53`. -/
theorem significand_round_bounds {q : ℚ} (hq : 0 < q) :
    (2 : ℤ) ^ 52 ≤ roundHalfEven (q / (2 : ℚ) ^ (Int.log 2 q - 52))
      ∧ roundHalfEven (q / (2 : ℚ) ^ (Int.log 2 q - 52)) ≤ (2 : ℤ) ^ 53 := by
  constructor
  · have h := roundHalfEven_mono (significand_ge hq)
    have h2 : roundHalfEven ((2 : ℚ) ^ (52 : ℤ)) = (2 : ℤ) ^ 52 := by
      have : ((2 : ℚ) ^ (52 : ℤ)) = (((2 : ℤ) ^ 52 : ℤ) : ℚ) := by norm_num
      rw [this, roundHalfEven_intCast]
    rw [h2] at h
    exact h
  · have h := roundHalfEven_mono (le_of_lt (significand_lt q))
    have h2 : roundHalfEven ((2 : ℚ) ^ (53 : ℤ)) = (2 : ℤ) ^ 53 := by
      have : ((2 : ℚ) ^ (53 : ℤ)) = (((2 : ℤ) ^ 53 : ℤ) : ℚ) := by norm_num
      rw [this, roundHalfEven_intCast]
    rw [h2] at h
    exact h

theorem roundFloat64_pos {q : ℚ} (hq : 0 < q) : 0 < roundFloat64 q := by
  rw [roundFloat64_of_pos hq]
  have h := (significand_round_bounds hq).1
  have h2 : (0 : ℚ) < (roundHalfEven (q / (2 : ℚ) ^ (Int.log 2 q - 52)) : ℚ) := by
    have : (0 : ℤ) < roundHalfEven (q / (2 : ℚ) ^ (Int.log 2 q - 52)) := by
      have : (0 : ℤ) < 2 ^ 52 := by norm_num
      omega
    exact_mod_cast this
  exact mul_pos h2 (two_zpow_pos _)

theorem roundFloat64_nonneg {q : ℚ} (hq : 0 ≤ q) : 0 ≤ roundFloat64 q := by
  rcases eq_or_lt_of_le hq with rfl | h
  · rw [roundFloat64_zero]
  · exact le_of_lt (roundFloat64_pos h)

/-- Rounding to float64 is monotone on the non-negative numbers. -/
theorem roundFloat64_mono {x y : ℚ} (hx : 0 ≤ x) (h : x ≤ y) :
    roundFloat64 x ≤ roundFloat64 y := by
  rcases eq_or_lt_of_le hx with rfl | hx0
  · rw [roundFloat64_zero]
    exact roundFloat64_nonneg h
  · have hy0 : 0 < y := lt_of_lt_of_le hx0 h
    rw [roundFloat64_of_pos hx0, roundFloat64_of_pos hy0]
    have hlog : Int.log 2 x ≤ Int.log 2 y := Int.log_mono_right hx0 h
    rcases eq_or_lt_of_le hlog with he | hl
    · rw [he]
      have hdiv : x / (2 : ℚ) ^ (Int.log 2 y - 52) ≤ y / (2 : ℚ) ^ (Int.log 2 y - 52) :=
        div_le_div_of_nonneg_right h (le_of_lt (two_zpow_pos _))
      have hr := roundHalfEven_mono hdiv
      have hr2 : ((roundHalfEven (x / (2 : ℚ) ^ (Int.log 2 y - 52)) : ℤ) : ℚ)
          ≤ (roundHalfEven (y / (2 : ℚ) ^ (Int.log 2 y - 52)) : ℤ) := by exact_mod_cast hr
      exact mul_le_mul_of_nonneg_right hr2 (le_of_lt (two_zpow_pos _))
    · have hxu := (significand_round_bounds hx0).2
      have hyl := (significand_round_bounds hy0).1
      have hxu2 : ((roundHalfEven (x / (2 : ℚ) ^ (Int.log 2 x - 52)) : ℤ) : ℚ)
          ≤ (2 : ℚ) ^ (53 : ℤ) := by
        have : ((2 : ℚ) ^ (53 : ℤ)) = (((2 : ℤ) ^ 53 : ℤ) : ℚ) := by norm_num
        rw [this]
        exact_mod_cast hxu
      have hyl2 : (2 : ℚ) ^ (52 : ℤ)
          ≤ ((roundHalfEven (y / (2 : ℚ) ^ (Int.log 2 y - 52)) : ℤ) : ℚ) := by
        have : ((2 : ℚ) ^ (52 : ℤ)) = (((2 : ℤ) ^ 52 : ℤ) : ℚ) := by norm_num
        rw [this]
        exact_mod_cast hyl
      calc ((roundHalfEven (x / (2 : ℚ) ^ (Int.log 2 x - 52)) : ℤ) : ℚ)
              * (2 : ℚ) ^ (Int.log 2 x - 52)
          ≤ (2 : ℚ) ^ (53 : ℤ) * (2 : ℚ) ^ (Int.log 2 x - 52) :=
            mul_le_mul_of_nonneg_right hxu2 (le_of_lt (two_zpow_pos _))
        _ = (2 : ℚ) ^ (Int.log 2 x + 1) := by
            rw [← zpow_add₀ (by norm_num : (2 : ℚ) ≠ 0)]
            congr 1
            ring
        _ ≤ (2 : ℚ) ^ (Int.log 2 y) :=
            zpow_le_zpow_right₀ (by norm_num) (by omega)
        _ = (2 : ℚ) ^ (52 : ℤ) * (2 : ℚ) ^ (Int.log 2 y - 52) := by
            rw [← zpow_add₀ (by norm_num : (2 : ℚ) ≠ 0)]
            congr 1
            ring
        _ ≤ ((roundHalfEven (y / (2 : ℚ) ^ (Int.log 2 y - 52)) : ℤ) : ℚ)
              * (2 : ℚ) ^ (Int.log 2 y - 52) :=
            mul_le_mul_of_nonneg_right hyl2 (le_of_lt (two_zpow_pos _))

/-- Rounding to float64 moves a non-negative number by at most the fraction `2^-53` of it. -/
theorem roundFloat64_error {q : ℚ} (hq : 0 ≤ q) :
    |roundFloat64 q - q| ≤ q / 2 ^ 53 := by
  rcases eq_or_lt_of_le hq with rfl | h
  · simp [roundFloat64_zero]
  · rw [roundFloat64_of_pos h]
    set e := Int.log 2 q - 52 with he
    have hp := two_zpow_pos e
    have hr := roundHalfEven_sub_le (q / (2 : ℚ) ^ e)
    have heq : ((roundHalfEven (q / (2 : ℚ) ^ e) : ℤ) : ℚ) * (2 : ℚ) ^ e - q
        = ((roundHalfEven (q / (2 : ℚ) ^ e) : ℤ) - q / (2 : ℚ) ^ e) * (2 : ℚ) ^ e := by
      field_simp
    rw [heq, abs_mul, abs_of_pos hp]
    have h1 : |((roundHalfEven (q / (2 : ℚ) ^ e) : ℤ) : ℚ) - q / (2 : ℚ) ^ e| * (2 : ℚ) ^ e
        ≤ 1 / 2 * (2 : ℚ) ^ e := mul_le_mul_of_nonneg_right hr (le_of_lt hp)
    have h2 : (1 / 2 : ℚ) * (2 : ℚ) ^ e = (2 : ℚ) ^ (Int.log 2 q) / 2 ^ 53 := by
      have : Int.log 2 q = e + 52 := by omega
      rw [this, zpow_add₀ (by norm_num : (2 : ℚ) ≠ 0)]
      norm_num
      ring
    have h3 : (2 : ℚ) ^ (Int.log 2 q) / 2 ^ 53 ≤ q / 2 ^ 53 :=
      div_le_div_of_nonneg_right (zpow_log_le h) (by norm_num)
    linarith

/-- A natural number below `2^53` is a float64. -/
theorem roundFloat64_natCast (n : ℕ) (hn : n < 2 ^ 53) : roundFloat64 (n : ℚ) = n := by
  rcases Nat.eq_zero_or_pos n with rfl | hpos
  · simp [roundFloat64_zero]
  · have hq : (0 : ℚ) < n := by exact_mod_cast hpos
    rw [roundFloat64_of_pos hq]
    have hlog : Int.log 2 (n : ℚ) = (Nat.log 2 n : ℤ) := Int.log_natCast 2 n
    have hlt : Nat.log 2 n < 53 := by
      apply Nat.log_lt_of_lt_pow (by omega) hn
    obtain ⟨k, hk⟩ : ∃ k : ℕ, Int.log 2 (n : ℚ) - 52 = -(k : ℤ) :=
      ⟨52 - Nat.log 2 n, by rw [hlog]; omega⟩
    rw [hk]
    have hdiv : (n : ℚ) / (2 : ℚ) ^ (-(k : ℤ)) = ((n * 2 ^ k : ℕ) : ℤ) := by
      rw [zpow_neg, zpow_natCast]
      push_cast
      field_simp
    rw [hdiv, roundHalfEven_intCast, zpow_neg, zpow_natCast]
    push_cast
    field_simp

/-! ## Percentile handler: the two rank loops -/

theorem countLoop_fst (userIDObj : ObjectID) (results : List UserRow) (rank : ℕ)
    (totalUsers userRank : ℤ) :
    (countLoop userIDObj results rank (totalUsers, userRank)).1
      = totalUsers + (results.length : ℤ) := by
  induction results generalizing rank totalUsers userRank with
  | nil => simp [countLoop]
  | cons r rs ih =>
    simp only [countLoop, ih, List.length_cons]
    push_cast
    ring

theorem countLoop_snd_of_not_mem (userIDObj : ObjectID) (results : List UserRow) (rank : ℕ)
    (totalUsers userRank : ℤ) (h : userIDObj ∉ results.map Prod.fst) :
    (countLoop userIDObj results rank (totalUsers, userRank)).2 = userRank := by
  induction results generalizing rank totalUsers userRank with
  | nil => simp [countLoop]
  | cons r rs ih =>
    simp only [List.map_cons, List.mem_cons, not_or] at h
    have hne : ¬ r.1 = userIDObj := fun he => h.1 he.symm
    simp only [countLoop, hne, if_false]
    exact ih _ _ _ h.2

theorem rankLoop_of_not_mem (userIDObj : ObjectID) (results : List UserRow) (rank : ℕ)
    (userRank : ℤ) (h : userIDObj ∉ results.map Prod.fst) :
    rankLoop userIDObj results rank userRank = userRank := by
  induction results generalizing rank with
  | nil => simp [rankLoop]
  | cons r rs ih =>
    simp only [List.map_cons, List.mem_cons, not_or] at h
    have hne : ¬ r.1 = userIDObj := fun he => h.1 he.symm
    simp only [rankLoop, hne, if_false]
    exact ih _ h.2

theorem rankLoop_of_mem (userIDObj : ObjectID) (results : List UserRow) (rank : ℕ)
    (userRank : ℤ) (h : userIDObj ∈ results.map Prod.fst) :
    rankLoop userIDObj results rank userRank
      = ((rank + (results.map Prod.fst).indexOf userIDObj + 1 : ℕ) : ℤ) := by
  induction results generalizing rank with
  | nil => simp at h
  | cons r rs ih =>
    by_cases he : r.1 = userIDObj
    · simp [rankLoop, he]
    · have hne : ¬ userIDObj = r.1 := fun h2 => he h2.symm
      simp only [List.map_cons, List.mem_cons, hne, false_or] at h
      simp only [rankLoop, he, if_false, List.map_cons]
      rw [ih _ h, List.indexOf_cons_ne _ (fun h2 => he h2)]
      push_cast
      ring

/-- With a well-formed identifier and at least one row, the handler answers 200 with the float
`(float64(userRank) / float64(totalUsers)) * 100`, where `totalUsers` is the number of rows and
`userRank` what the second loop leaves. -/
theorem percentileResponse_of_rows (userID : String) (userIDObj : ObjectID)
    (results : List UserRow) (hid : ObjectIDFromHex userID = some userIDObj)
    (hne : results ≠ []) :
    percentileResponse userID results
      = { status := 200
          body := .percentile (fmul (fdiv
            (float64OfInt (rankLoop userIDObj results 0
              (countLoop userIDObj results 0 (0, 0)).2))
            (float64OfInt (results.length : ℤ))) 100) } := by
  have hlen : ¬ results.length = 0 := by
    intro h
    exact hne (List.length_eq_zero.mp h)
  unfold percentileResponse
  rw [if_neg hlen, hid]
  have h1 := countLoop_fst userIDObj results 0 0 0
  simp only [zero_add] at h1
  simp only [← h1]

theorem roundFloat64_two_zpow (z : ℤ) : roundFloat64 ((2 : ℚ) ^ z) = (2 : ℚ) ^ z := by
  rw [roundFloat64_of_pos (two_zpow_pos z)]
  have hlog : Int.log 2 ((2 : ℚ) ^ z) = z := by
    have h := Int.log_zpow (R := ℚ) (b := 2) (by norm_num) z
    simpa using h
  rw [hlog]
  have hdiv : (2 : ℚ) ^ z / (2 : ℚ) ^ (z - 52) = (((2 : ℤ) ^ 52 : ℤ) : ℚ) := by
    rw [← zpow_sub₀ (by norm_num : (2 : ℚ) ≠ 0)]
    have : z - (z - 52) = 52 := by ring
    rw [this]
    norm_num
  rw [hdiv, roundHalfEven_intCast]
  have : (((2 : ℤ) ^ 52 : ℤ) : ℚ) = (2 : ℚ) ^ (52 : ℤ) := by norm_num
  rw [this, ← zpow_add₀ (by norm_num : (2 : ℚ) ≠ 0)]
  congr 1
  ring

theorem roundFloat64_one : roundFloat64 1 = 1 := by
  have h := roundFloat64_natCast 1 (by norm_num)
  simpa using h

theorem roundFloat64_two : roundFloat64 2 = 2 := by
  have h := roundFloat64_natCast 2 (by norm_num)
  simpa using h

theorem roundFloat64_half : roundFloat64 (1 / 2) = 1 / 2 := by
  have h := roundFloat64_two_zpow (-1)
  have h2 : (2 : ℚ) ^ (-1 : ℤ) = 1 / 2 := by norm_num
  rw [h2] at h
  exact h

theorem roundFloat64_fifty : roundFloat64 50 = 50 := by
  have h := roundFloat64_natCast 50 (by norm_num)
  simpa using h

theorem roundFloat64_hundred : roundFloat64 100 = 100 := by
  have h := roundFloat64_natCast 100 (by norm_num)
  simpa using h

/-! ## Percentile handler: outcomes -/

/-- C1, as stated, fails. With a well-formed identifier whose user has no Wager event in the
range, the handler answers 200 with the no-data message when the range yields no user at all,
and 200 with the percentile 0 when only another user wagered; neither is a 400-status
outcome. -/
theorem absent_user_is_not_a_400 :
    ObjectIDFromHex userAHex = some userA
      ∧ userWagerPercentileHandler userAHex (some jan01) (some jan31) []
          = { status := 200, body := .message "No data found for the specified date range" }
      ∧ (∀ t ∈ otherUserLedger, t.UserID ≠ userA)
      ∧ userWagerPercentileHandler userAHex (some jan01) (some jan31) otherUserLedger
          = { status := 200, body := .percentile 0 }
      ∧ (userWagerPercentileHandler userAHex (some jan01) (some jan31) []).status ≠ 400
      ∧ (userWagerPercentileHandler userAHex (some jan01) (some jan31) otherUserLedger).status
          ≠ 400 := by
  have hid : ObjectIDFromHex userAHex = some userA := by decide
  have hrows : userTotals otherUserLedger jan01 jan31 = [(userB, 100)] := by decide!
  have hresp : userWagerPercentileHandler userAHex (some jan01) (some jan31) otherUserLedger
      = { status := 200, body := .percentile 0 } := by
    show percentileResponse userAHex (userTotals otherUserLedger jan01 jan31) = _
    rw [hrows, percentileResponse_of_rows userAHex userA _ hid (by simp)]
    have hr : rankLoop userA [(userB, (100 : ℚ))] 0 (countLoop userA [(userB, 100)] 0 (0, 0)).2
        = 0 := by decide
    rw [hr]
    simp [float64OfInt, fdiv, fmul, roundFloat64_zero]
  refine ⟨hid, by decide, by decide, hresp, by decide, ?_⟩
  rw [hresp]
  decide

/-- C1, amended: for every well-formed user identifier and every date range and ledger in which
no Wager event at all lies in the range (the range yields zero users), the handler answers with
the no-data outcome, status 200 and a message, and never with a percentile value. -/
theorem no_wager_in_range_is_no_data (userID : String) (userIDObj : ObjectID)
    (fromDate toDate : ℤ) (collection : List Transaction)
    (hid : ObjectIDFromHex userID = some userIDObj)
    (hnone : ∀ t ∈ collection,
      ¬ (fromDate ≤ t.CreatedAt ∧ t.CreatedAt ≤ toDate ∧ t.Type_ = "Wager")) :
    userWagerPercentileHandler userID (some fromDate) (some toDate) collection
        = { status := 200, body := .message "No data found for the specified date range" }
      ∧ ∀ p, (userWagerPercentileHandler userID (some fromDate) (some toDate) collection).body
          ≠ .percentile p := by
  have _ := hid
  have hm : wagerMatch collection fromDate toDate = [] := by
    unfold wagerMatch
    rw [List.filter_eq_nil_iff]
    intro t ht
    have := hnone t ht
    simp only [inRange, Bool.and_eq_true, decide_eq_true_eq]
    tauto
  have hrows : userTotals collection fromDate toDate = [] := by
    simp [userTotals, hm, group]
  have hresp : userWagerPercentileHandler userID (some fromDate) (some toDate) collection
      = { status := 200, body := .message "No data found for the specified date range" } := by
    show percentileResponse userID (userTotals collection fromDate toDate) = _
    rw [hrows]
    rfl
  refine ⟨hresp, fun p => ?_⟩
  rw [hresp]
  simp

/-- C1 amended, at a concrete input: `userA` and a ledger whose only event lies outside January
2024. -/
theorem no_wager_in_range_is_no_data_witness :
    ObjectIDFromHex userAHex = some userA
      ∧ (∀ t ∈ lateLedger,
          ¬ (jan01 ≤ t.CreatedAt ∧ t.CreatedAt ≤ jan31 ∧ t.Type_ = "Wager"))
      ∧ userWagerPercentileHandler userAHex (some jan01) (some jan31) lateLedger
          = { status := 200, body := .message "No data found for the specified date range" } :=
  ⟨by decide, by decide,
    (no_wager_in_range_is_no_data userAHex userA jan01 jan31 lateLedger (by decide)
      (by decide)).1⟩

/-- C2 fails on the code: `userA` wagered 200 USD and `userB` 100 USD, the rows reach the
handler in the order `userA`, `userB`, and the handler reports 50 for `userA` and 100 for
`userB`: the user with the larger total gets the smaller percentile. -/
theorem percentile_follows_row_order :
    userTotals unsortedLedger jan01 jan31 = [(userA, 200), (userB, 100)]
      ∧ userWagerPercentileHandler userAHex (some jan01) (some jan31) unsortedLedger
          = { status := 200, body := .percentile 50 }
      ∧ userWagerPercentileHandler userBHex (some jan01) (some jan31) unsortedLedger
          = { status := 200, body := .percentile 100 } := by
  have hrows : userTotals unsortedLedger jan01 jan31 = [(userA, 200), (userB, 100)] := by
    decide!
  have hA : ObjectIDFromHex userAHex = some userA := by decide
  have hB : ObjectIDFromHex userBHex = some userB := by decide
  refine ⟨hrows, ?_, ?_⟩
  · show percentileResponse userAHex (userTotals unsortedLedger jan01 jan31) = _
    rw [hrows, percentileResponse_of_rows userAHex userA _ hA (by simp)]
    have hr : rankLoop userA [(userA, (200 : ℚ)), (userB, 100)] 0
        (countLoop userA [(userA, 200), (userB, 100)] 0 (0, 0)).2 = 1 := by decide
    rw [hr]
    simp only [float64OfInt, fdiv, fmul, List.length_cons, List.length_nil]
    norm_num [roundFloat64_one, roundFloat64_two, roundFloat64_half, roundFloat64_fifty]
  · show percentileResponse userBHex (userTotals unsortedLedger jan01 jan31) = _
    rw [hrows, percentileResponse_of_rows userBHex userB _ hB (by simp)]
    have hr : rankLoop userB [(userA, (200 : ℚ)), (userB, 100)] 0
        (countLoop userB [(userA, 200), (userB, 100)] 0 (0, 0)).2 = 2 := by decide
    rw [hr]
    simp only [float64OfInt, fdiv, fmul, List.length_cons, List.length_nil]
    norm_num [roundFloat64_one, roundFloat64_two, roundFloat64_hundred]

/-- C4 fails on the code: a malformed identifier is rejected only after the empty-result check,
so with no Wager event in the range the handler answers 200 with the no-data message instead of
400 "Invalid user ID". -/
theorem malformed_id_with_empty_range :
    ObjectIDFromHex "not-an-object-id" = none
      ∧ userWagerPercentileHandler "not-an-object-id" (some jan01) (some jan31) []
          = { status := 200, body := .message "No data found for the specified date range" }
      ∧ userWagerPercentileHandler "not-an-object-id" (some jan01) (some jan31) otherUserLedger
          = { status := 400, body := .error "Invalid user ID" } := by
  refine ⟨by decide, by decide, ?_⟩
  have hrows : userTotals otherUserLedger jan01 jan31 = [(userB, 100)] := by decide!
  show percentileResponse "not-an-object-id" (userTotals otherUserLedger jan01 jan31) = _
  rw [hrows]
  decide

/-- On the path that has rows, a malformed identifier is rejected with 400 "Invalid user ID". -/
theorem malformed_id_with_rows (userID : String) (results : List UserRow)
    (hid : ObjectIDFromHex userID = none) (hne : results ≠ []) :
    percentileResponse userID results = { status := 400, body := .error "Invalid user ID" } := by
  have hlen : ¬ results.length = 0 := fun h => hne (List.length_eq_zero.mp h)
  unfold percentileResponse
  rw [if_neg hlen, hid]

/-- The float `(float64(rank) / float64(total)) * 100` for `1 ≤ rank ≤ total` lies in
`(0, 100]`. -/
theorem percent_bounds (rank total : ℕ) (h1 : 1 ≤ rank) (h2 : rank ≤ total) :
    0 < fmul (fdiv (float64OfInt (rank : ℤ)) (float64OfInt (total : ℤ))) 100
      ∧ fmul (fdiv (float64OfInt (rank : ℤ)) (float64OfInt (total : ℤ))) 100 ≤ 100 := by
  simp only [float64OfInt, fdiv, fmul, Int.cast_natCast]
  have hr : (0 : ℚ) < (rank : ℚ) := by exact_mod_cast h1
  have hrt : (rank : ℚ) ≤ (total : ℚ) := by exact_mod_cast h2
  have ha : 0 < roundFloat64 (rank : ℚ) := roundFloat64_pos hr
  have hab : roundFloat64 (rank : ℚ) ≤ roundFloat64 (total : ℚ) :=
    roundFloat64_mono (le_of_lt hr) hrt
  have hb : 0 < roundFloat64 (total : ℚ) := lt_of_lt_of_le ha hab
  have hq : 0 < roundFloat64 (rank : ℚ) / roundFloat64 (total : ℚ) := div_pos ha hb
  have hq1 : roundFloat64 (rank : ℚ) / roundFloat64 (total : ℚ) ≤ 1 :=
    (div_le_one hb).mpr hab
  have hf : 0 < roundFloat64 (roundFloat64 (rank : ℚ) / roundFloat64 (total : ℚ)) :=
    roundFloat64_pos hq
  have hf1 : roundFloat64 (roundFloat64 (rank : ℚ) / roundFloat64 (total : ℚ)) ≤ 1 := by
    have := roundFloat64_mono (le_of_lt hq) hq1
    rwa [roundFloat64_one] at this
  constructor
  · apply roundFloat64_pos
    positivity
  · have hle : roundFloat64 (roundFloat64 (rank : ℚ) / roundFloat64 (total : ℚ)) * 100
        ≤ 100 := by linarith
    have := roundFloat64_mono (by positivity) hle
    rwa [roundFloat64_hundred] at this

/-- With fewer than `2^53` rows the float percentile is within `100 / 2^51` of the exact
quotient `rank / total * 100`. -/
theorem percent_accuracy (rank total : ℕ) (h1 : 1 ≤ rank) (h2 : rank ≤ total)
    (ht : total < 2 ^ 53) :
    |fmul (fdiv (float64OfInt (rank : ℤ)) (float64OfInt (total : ℤ))) 100
        - (rank : ℚ) / (total : ℚ) * 100| ≤ 100 / 2 ^ 51 := by
  simp only [float64OfInt, fdiv, fmul, Int.cast_natCast]
  rw [roundFloat64_natCast rank (lt_of_le_of_lt h2 ht), roundFloat64_natCast total ht]
  have hr : (0 : ℚ) < (rank : ℚ) := by exact_mod_cast h1
  have hrt : (rank : ℚ) ≤ (total : ℚ) := by exact_mod_cast h2
  have ht0 : (0 : ℚ) < (total : ℚ) := lt_of_lt_of_le hr hrt
  have hq : 0 < (rank : ℚ) / (total : ℚ) := div_pos hr ht0
  have hq1 : (rank : ℚ) / (total : ℚ) ≤ 1 := (div_le_one ht0).mpr hrt
  have e1 := roundFloat64_error (le_of_lt hq)
  have hf1 : roundFloat64 ((rank : ℚ) / (total : ℚ)) ≤ 1 := by
    have := roundFloat64_mono (le_of_lt hq) hq1
    rwa [roundFloat64_one] at this
  have hf0 : 0 ≤ roundFloat64 ((rank : ℚ) / (total : ℚ)) := roundFloat64_nonneg (le_of_lt hq)
  have e2 := roundFloat64_error (q := roundFloat64 ((rank : ℚ) / (total : ℚ)) * 100)
    (by positivity)
  rw [abs_le] at e1 e2 ⊢
  have k1 : (rank : ℚ) / (total : ℚ) / 2 ^ 53 ≤ 1 / 2 ^ 53 :=
    div_le_div_of_nonneg_right hq1 (by norm_num)
  have k2 : roundFloat64 ((rank : ℚ) / (total : ℚ)) * 100 / 2 ^ 53 ≤ 100 / 2 ^ 53 :=
    div_le_div_of_nonneg_right (by linarith) (by norm_num)
  have k3 : (100 : ℚ) / 2 ^ 53 + 100 * (1 / 2 ^ 53) ≤ 100 / 2 ^ 51 := by norm_num
  constructor <;> linarith [e1.1, e1.2, e2.1, e2.2]

/-- C3: for every non-empty list of per-user aggregate rows that contains the target user, the
handler reports the float64 value of `(rank / totalUsers) * 100`, where `totalUsers` is the number
of rows and `rank` the 1-based position of the (first) row of the target user; the value is
greater than 0 and at most 100, and within `100 / 2^51` of the exact quotient when there are
fewer than `2^53` rows. -/
theorem percentile_of_found_user (userID : String) (userIDObj : ObjectID)
    (results : List UserRow) (hid : ObjectIDFromHex userID = some userIDObj)
    (hne : results ≠ []) (hmem : userIDObj ∈ results.map Prod.fst) :
    ∃ p : ℚ, percentileResponse userID results = { status := 200, body := .percentile p }
      ∧ p = fmul (fdiv
              (float64OfInt (((results.map Prod.fst).indexOf userIDObj + 1 : ℕ) : ℤ))
              (float64OfInt (results.length : ℤ))) 100
      ∧ 0 < p ∧ p ≤ 100
      ∧ (results.length < 2 ^ 53 →
          |p - (((results.map Prod.fst).indexOf userIDObj + 1 : ℕ) : ℚ)
                / (results.length : ℚ) * 100| ≤ 100 / 2 ^ 51) := by
  have hresp := percentileResponse_of_rows userID userIDObj results hid hne
  rw [rankLoop_of_mem userIDObj results 0 _ hmem] at hresp
  simp only [zero_add] at hresp
  have hidx : (results.map Prod.fst).indexOf userIDObj < results.length := by
    have := List.indexOf_lt_length.mpr hmem
    simpa using this
  have hb := percent_bounds ((results.map Prod.fst).indexOf userIDObj + 1) results.length
    (by omega) (by omega)
  exact ⟨_, hresp, rfl, hb.1, hb.2, fun ht =>
    percent_accuracy ((results.map Prod.fst).indexOf userIDObj + 1) results.length
      (by omega) (by omega) ht⟩

/-- C3 at a concrete input: the rows of `userA` and `userB`, target `userB`, rank 2 of 2. -/
theorem percentile_of_found_user_witness :
    ObjectIDFromHex userBHex = some userB
      ∧ [(userA, (200 : ℚ)), (userB, 100)] ≠ []
      ∧ userB ∈ [(userA, (200 : ℚ)), (userB, 100)].map Prod.fst
      ∧ ∃ p : ℚ, percentileResponse userBHex [(userA, 200), (userB, 100)]
            = { status := 200, body := .percentile p } ∧ 0 < p ∧ p ≤ 100 := by
  have h := percentile_of_found_user userBHex userB [(userA, 200), (userB, 100)]
    (by decide) (by simp) (by decide)
  obtain ⟨p, h1, _, h3, h4, _⟩ := h
  exact ⟨by decide, by simp, by decide, p, h1, h3, h4⟩

/-! ## Generator: amounts and their USD equivalent -/

theorem Float64_bounds (raw : ℕ) : 0 ≤ Float64 raw ∧ Float64 raw ≤ 1 := by
  unfold Float64
  simp only
  split_ifs with h1
  · exact ⟨le_refl 0, by norm_num⟩
  · unfold fdiv float64OfInt Intn
    have hk : raw % 2 ^ 63 < 2 ^ 63 := Nat.mod_lt _ (by norm_num)
    have hk0 : (0 : ℚ) ≤ ((raw % 2 ^ 63 : ℕ) : ℚ) := by positivity
    have hkq : ((raw % 2 ^ 63 : ℕ) : ℚ) ≤ (2 : ℚ) ^ (63 : ℤ) := by
      have h : ((raw % 2 ^ 63 : ℕ) : ℚ) ≤ ((2 ^ 63 : ℕ) : ℚ) := Nat.cast_le.mpr (le_of_lt hk)
      have h2 : ((2 ^ 63 : ℕ) : ℚ) = (2 : ℚ) ^ (63 : ℤ) := by norm_num
      rw [h2] at h
      exact h
    have hf0 : 0 ≤ roundFloat64 ((raw % 2 ^ 63 : ℕ) : ℚ) := roundFloat64_nonneg hk0
    have hf1 : roundFloat64 ((raw % 2 ^ 63 : ℕ) : ℚ) ≤ (2 : ℚ) ^ (63 : ℤ) := by
      have := roundFloat64_mono hk0 hkq
      rwa [roundFloat64_two_zpow] at this
    have hp : (0 : ℚ) < 2 ^ 63 := by norm_num
    have hq0 : 0 ≤ roundFloat64 ((raw % 2 ^ 63 : ℕ) : ℚ) / 2 ^ 63 := div_nonneg hf0 (le_of_lt hp)
    have hq1 : roundFloat64 ((raw % 2 ^ 63 : ℕ) : ℚ) / 2 ^ 63 ≤ 1 := by
      rw [div_le_one hp]
      have : (2 : ℚ) ^ (63 : ℤ) = 2 ^ 63 := by norm_num
      rw [← this]
      exact hf1
    simp only [Int.cast_natCast]
    refine ⟨roundFloat64_nonneg hq0, ?_⟩
    have := roundFloat64_mono hq0 hq1
    rwa [roundFloat64_one] at this

/-- The amount `randomAmount` draws between two non-negative floats `lo ≤ hi ≤ H` is a whole
number of hundredths, at most `200 * H` of them. -/
theorem randomAmount_cents (lo hi u : ℚ) (H : ℕ) (hH : 2 * H < 2 ^ 53) (h0 : 0 ≤ lo)
    (hle : lo ≤ hi) (hhi : hi ≤ H) (hu0 : 0 ≤ u) (hu1 : u ≤ 1) :
    ∃ n : ℕ, randomAmount lo hi u = (n : ℚ) / 100 ∧ n ≤ 200 * H := by
  have hHq : roundFloat64 (H : ℚ) = H := roundFloat64_natCast H (by omega)
  have h2Hq : roundFloat64 ((2 * H : ℕ) : ℚ) = (2 * H : ℕ) := roundFloat64_natCast (2 * H) hH
  have hd0 : 0 ≤ fsub hi lo := roundFloat64_nonneg (by linarith)
  have hd1 : fsub hi lo ≤ H := by
    have := roundFloat64_mono (x := hi - lo) (y := H) (by linarith) (by linarith)
    rwa [hHq] at this
  have hud0 : 0 ≤ u * fsub hi lo := mul_nonneg hu0 hd0
  have hud1 : u * fsub hi lo ≤ H := by
    calc u * fsub hi lo ≤ 1 * fsub hi lo := mul_le_mul_of_nonneg_right hu1 hd0
      _ = fsub hi lo := one_mul _
      _ ≤ H := hd1
  have hm0 : 0 ≤ fmul u (fsub hi lo) := roundFloat64_nonneg hud0
  have hm1 : fmul u (fsub hi lo) ≤ H := by
    have := roundFloat64_mono hud0 hud1
    rwa [hHq] at this
  have hs0 : 0 ≤ fadd lo (fmul u (fsub hi lo)) := roundFloat64_nonneg (by linarith)
  have hs1 : fadd lo (fmul u (fsub hi lo)) ≤ (2 * H : ℕ) := by
    have := roundFloat64_mono (x := lo + fmul u (fsub hi lo)) (y := ((2 * H : ℕ) : ℚ))
      (by linarith) (by push_cast; linarith)
    rwa [h2Hq] at this
  have hn0 : 0 ≤ roundHalfEven (100 * fadd lo (fmul u (fsub hi lo))) := by
    have := roundHalfEven_mono (q := 0) (r := 100 * fadd lo (fmul u (fsub hi lo)))
      (by linarith)
    have h00 : roundHalfEven 0 = 0 := by
      have := roundHalfEven_intCast 0
      simpa using this
    rwa [h00] at this
  have hn1 : roundHalfEven (100 * fadd lo (fmul u (fsub hi lo))) ≤ ((200 * H : ℕ) : ℤ) := by
    have := roundHalfEven_mono (q := 100 * fadd lo (fmul u (fsub hi lo)))
      (r := (((200 * H : ℕ) : ℤ) : ℚ)) (by push_cast at hs1 ⊢; linarith)
    rwa [roundHalfEven_intCast] at this
  refine ⟨(roundHalfEven (100 * fadd lo (fmul u (fsub hi lo)))).toNat, ?_, ?_⟩
  · unfold randomAmount sprintf2
    simp only
    congr 1
    have : ((roundHalfEven (100 * fadd lo (fmul u (fsub hi lo)))).toNat : ℤ)
        = roundHalfEven (100 * fadd lo (fmul u (fsub hi lo))) := Int.toNat_of_nonneg hn0
    exact_mod_cast this.symm
  · omega

/-- With a rate `r` that is a natural number up to 50000, the USD equivalent of a 2-decimal
amount of at most `10^7` hundredths is the exact product. -/
theorem usd_of_cents (n r : ℕ) (hn : n ≤ 10 ^ 7) (hr : r ≤ 50000) :
    sprintf2 (fmul (decimal128ToFloat64 ((n : ℚ) / 100)) (r : ℚ)) = (n : ℚ) / 100 * r := by
  unfold sprintf2 fmul decimal128ToFloat64
  have ha0 : (0 : ℚ) ≤ (n : ℚ) / 100 := by positivity
  have hnq : (n : ℚ) ≤ 10 ^ 7 := by exact_mod_cast hn
  have hrq : (r : ℚ) ≤ 50000 := by exact_mod_cast hr
  have hr0 : (0 : ℚ) ≤ (r : ℚ) := by positivity
  have e1 := roundFloat64_error ha0
  have hf0 : 0 ≤ roundFloat64 ((n : ℚ) / 100) := roundFloat64_nonneg ha0
  have e2 := roundFloat64_error (q := roundFloat64 ((n : ℚ) / 100) * r) (by positivity)
  set a := (n : ℚ) / 100 with ha
  set fa := roundFloat64 a with hfa
  set y := roundFloat64 (fa * r) with hy
  have ha1 : a ≤ 10 ^ 5 := by rw [ha]; linarith
  have hfa1 : |fa - a| ≤ 10 ^ 5 / 2 ^ 53 := by
    refine le_trans e1 ?_
    exact div_le_div_of_nonneg_right ha1 (by norm_num)
  have hfa2 : fa ≤ 10 ^ 5 + 1 := by
    rw [abs_le] at hfa1
    have : (10 : ℚ) ^ 5 / 2 ^ 53 ≤ 1 := by norm_num
    linarith [hfa1.2]
  have hprod : |fa * r - a * r| ≤ 10 ^ 5 / 2 ^ 53 * 50000 := by
    rw [← sub_mul, abs_mul, abs_of_nonneg hr0]
    exact mul_le_mul hfa1 hrq hr0 (by positivity)
  have hfr : fa * r ≤ (10 ^ 5 + 1) * 50000 := mul_le_mul hfa2 hrq hr0 (by positivity)
  have hy1 : |y - fa * r| ≤ (10 ^ 5 + 1) * 50000 / 2 ^ 53 := by
    refine le_trans e2 ?_
    exact div_le_div_of_nonneg_right hfr (by norm_num)
  have hnear : |100 * y - ((n * r : ℕ) : ℤ)| < 1 / 2 := by
    have hexact : (((n * r : ℕ) : ℤ) : ℚ) = 100 * (a * r) := by
      rw [ha]
      push_cast
      ring
    rw [hexact, abs_lt]
    rw [abs_le] at hprod hy1
    have c1 : (100 : ℚ) * ((10 ^ 5 + 1) * 50000 / 2 ^ 53 + 10 ^ 5 / 2 ^ 53 * 50000) < 1 / 2 := by
      norm_num
    constructor <;> linarith [hprod.1, hprod.2, hy1.1, hy1.2]
  rw [roundHalfEven_eq_of_near _ _ hnear, ha]
  push_cast
  ring

theorem randomCurrency_mem (raw : ℕ) :
    randomCurrency raw = "ETH" ∨ randomCurrency raw = "BTC" ∨ randomCurrency raw = "USDT" := by
  unfold randomCurrency Intn currencies
  have h : raw % 3 < 3 := Nat.mod_lt _ (by norm_num)
  simp only [List.length_cons, List.length_nil]
  norm_num
  interval_cases (raw % 3) <;> simp

theorem exchangeRates_nat (c : String)
    (hc : c = "ETH" ∨ c = "BTC" ∨ c = "USDT") :
    ∃ r : ℕ, exchangeRates c = r ∧ r ≤ 50000 := by
  rcases hc with rfl | rfl | rfl
  · exact ⟨3000, by simp [exchangeRates], by norm_num⟩
  · exact ⟨50000, by simp [exchangeRates], by norm_num⟩
  · exact ⟨1, by simp [exchangeRates], by norm_num⟩

theorem sprintf2_of_cents (n r : ℕ) : sprintf2 ((n : ℚ) / 100 * r) = (n : ℚ) / 100 * r := by
  unfold sprintf2
  have h : 100 * ((n : ℚ) / 100 * r) = (((n * r : ℕ) : ℤ) : ℚ) := by
    push_cast
    ring
  rw [h, roundHalfEven_intCast]
  push_cast
  ring

/-- What `usdEquivalent` returns for a 2-decimal amount of at most `10^7` hundredths in one of the
three currencies. -/
theorem usdEquivalent_of_cents (n : ℕ) (hn : n ≤ 10 ^ 7) (c : String)
    (hc : c = "ETH" ∨ c = "BTC" ∨ c = "USDT") :
    usdEquivalent ((n : ℚ) / 100) c = sprintf2 ((n : ℚ) / 100 * exchangeRates c)
      ∧ usdEquivalent ((n : ℚ) / 100) c = (n : ℚ) / 100 * exchangeRates c := by
  obtain ⟨r, hr, hr2⟩ := exchangeRates_nat c hc
  unfold usdEquivalent
  simp only
  rw [hr, usd_of_cents n r hn hr2, sprintf2_of_cents]
  exact ⟨rfl, rfl⟩

/-- The wager amount of a round is a whole number of hundredths, at most 100000 of them. -/
theorem wagerAmount_cents (raw : ℕ) :
    ∃ n : ℕ, randomAmount 10 500 (Float64 raw) = (n : ℚ) / 100 ∧ n ≤ 100000 := by
  obtain ⟨n, h1, h2⟩ := randomAmount_cents 10 500 (Float64 raw) 500 (by norm_num)
    (by norm_num) (by norm_num) (by norm_num) (Float64_bounds raw).1 (Float64_bounds raw).2
  exact ⟨n, h1, by omega⟩

/-- The payout amount drawn for a wager of at most 100000 hundredths is a whole number of
hundredths, at most 400000 of them. -/
theorem payoutAmount_cents (n raw : ℕ) (hn : n ≤ 100000) :
    ∃ k : ℕ, randomAmount (fmul (1 / 2) (decimal128ToFloat64 ((n : ℚ) / 100)))
        (fmul 2 (decimal128ToFloat64 ((n : ℚ) / 100))) (Float64 raw) = (k : ℚ) / 100
      ∧ k ≤ 400000 := by
  have ha0 : (0 : ℚ) ≤ (n : ℚ) / 100 := by positivity
  have hnq : (n : ℚ) ≤ 100000 := by exact_mod_cast hn
  have hw0 : 0 ≤ decimal128ToFloat64 ((n : ℚ) / 100) := roundFloat64_nonneg ha0
  have hw1 : decimal128ToFloat64 ((n : ℚ) / 100) ≤ 1000 := by
    have h := roundFloat64_mono (x := (n : ℚ) / 100) (y := ((1000 : ℕ) : ℚ)) ha0
      (by push_cast; linarith)
    rw [roundFloat64_natCast 1000 (by norm_num)] at h
    exact_mod_cast h
  set w := decimal128ToFloat64 ((n : ℚ) / 100) with hw
  have hlo0 : 0 ≤ fmul (1 / 2) w := roundFloat64_nonneg (by linarith)
  have hle : fmul (1 / 2) w ≤ fmul 2 w :=
    roundFloat64_mono (by linarith) (by linarith)
  have hhi : fmul 2 w ≤ ((2000 : ℕ) : ℚ) := by
    have h := roundFloat64_mono (x := 2 * w) (y := ((2000 : ℕ) : ℚ)) (by linarith)
      (by push_cast; linarith)
    rw [roundFloat64_natCast 2000 (by norm_num)] at h
    exact h
  obtain ⟨k, h1, h2⟩ := randomAmount_cents (fmul (1 / 2) w) (fmul 2 w) (Float64 raw) 2000
    (by norm_num) hlo0 hle hhi (Float64_bounds raw).1 (Float64_bounds raw).2
  exact ⟨k, h1, by omega⟩

/-- C9: in every Transaction produced by `generateRoundTransactions`, the Wager and the Payout,
the currency is one of ETH, BTC, USDT, the amount has 2 decimals, and `usdAmount` equals
`amount × rate(currency)` rounded to 2 decimal places, with the rate of the `exchangeRates`
table; the product has at most 2 decimals itself, so `usdAmount` is exactly the product. -/
theorem usdAmount_is_amount_times_rate (d : RoundDraws) (roundID : String) (userID : ObjectID) :
    ∀ t ∈ generateRoundTransactions d roundID userID,
      (t.Currency = "ETH" ∨ t.Currency = "BTC" ∨ t.Currency = "USDT")
        ∧ (∃ n : ℕ, t.Amount = (n : ℚ) / 100)
        ∧ t.USDAmount = sprintf2 (t.Amount * exchangeRates t.Currency)
        ∧ t.USDAmount = t.Amount * exchangeRates t.Currency := by
  intro t ht
  obtain ⟨n, hn, hnb⟩ := wagerAmount_cents d.wager
  obtain ⟨k, hk, hkb⟩ := payoutAmount_cents n d.payout hnb
  have hc := randomCurrency_mem d.currency
  have hw := usdEquivalent_of_cents n (by omega) _ hc
  have hp := usdEquivalent_of_cents k (by omega) _ hc
  simp only [generateRoundTransactions, hn, hk, List.mem_cons, List.mem_singleton,
    List.not_mem_nil, or_false] at ht
  rcases ht with rfl | rfl
  · exact ⟨hc, ⟨n, rfl⟩, hw.1, hw.2⟩
  · exact ⟨hc, ⟨k, rfl⟩, hp.1, hp.2⟩

/-- C9 at a concrete round: the draws of `lateRound` give a Wager of 10.00 USDT, and both events
of the round carry `usdAmount = amount × rate`. -/
theorem usdAmount_is_amount_times_rate_witness :
    ∃ w p, generateRoundTransactions lateRound "r" userA = [w, p]
      ∧ w.Currency = "USDT" ∧ w.Amount = 10
      ∧ w.USDAmount = w.Amount * exchangeRates w.Currency
      ∧ p.USDAmount = p.Amount * exchangeRates p.Currency := by
  refine ⟨_, _, rfl, by decide, ?_,
    (usdAmount_is_amount_times_rate lateRound "r" userA _ (List.mem_cons_self _ _)).2.2.2,
    (usdAmount_is_amount_times_rate lateRound "r" userA _
      (List.mem_cons_of_mem _ (List.mem_cons_self _ _))).2.2.2⟩
  have h490 : roundFloat64 490 = 490 := by
    have h := roundFloat64_natCast 490 (by norm_num)
    simpa using h
  have h10 : roundFloat64 10 = 10 := by
    have h := roundFloat64_natCast 10 (by norm_num)
    simpa using h
  have h1000 : roundHalfEven 1000 = 1000 := by
    have h := roundHalfEven_intCast 1000
    simpa using h
  show randomAmount 10 500 (Float64 lateRound.wager) = 10
  have hu : Float64 lateRound.wager = 0 := by
    simp [Float64, Intn, lateRound, fdiv, float64OfInt, roundFloat64_zero]
  rw [hu]
  unfold randomAmount sprintf2 fadd fmul fsub
  norm_num [h490, h10, h1000, roundFloat64_zero]

end Casino
